import Mathlib

/-!
# Header vectors of dervish (`hdr.c`)

A shallow embedding of the routines of `src/dervish-8.21/src/hdr.c` that manage
a FITS header: a vector of `MAXHDRLINE + 1` line pointers together with a
modification counter.

* A line pointer (`HDR_VEC`) is `none` for `NULL` and `some text` for a C
  string, the text being the characters before the terminating NUL.
* `HDR.hdrVec` is `none` when the vector pointer is `NULL` and `some v` when
  the vector is allocated.
* `MAXHDRLINE` comes from a header file that is not among the sources, so every
  routine that uses it takes it as its first explicit argument.
* The libfits routines (`f_hlins`, `f_hdel`, `f_akey`, ...) are external to
  `hdr.c`; they are collected in the structure `Libfits` and passed to the
  routines that call them.
* `modCnt` is a natural number: the counter is read as an unbounded integer,
  the number the field would show if it never wrapped. The C field has a fixed
  width, declared outside the sources; what it holds is `fieldValue`.
-/

namespace Hdr

/-- Return codes used by `hdr.c`. -/
inductive RET_CODE where
  | SH_SUCCESS
  | SH_HEADER_IS_NULL
  | SH_GENERIC_ERROR
  | SH_HEADER_INSERTION_ERROR
  deriving DecidableEq, Repr

open RET_CODE

/-- Modelled from the spec: the numeric values of the return codes are declared
in a header file that is not among the sources. The spec has every insert go on
to format and splice its line after the lazy allocation, so the test
`shHdrInit(a_hdr) == 0` of the insert routines is false for the code
`SH_SUCCESS` that `shHdrInit` returns; the codes are message numbers, none of
which is zero. -/
def RET_CODE.isZero : RET_CODE → Bool
  | _ => false

/-- One entry of the header vector: `NULL` or a line of text. -/
abbrev HDR_VEC := Option String

/-- The header structure: modification counter and header vector. -/
structure HDR where
  modCnt : Nat
  hdrVec : Option (List HDR_VEC)
  deriving DecidableEq, Repr

/-- The entry `hdrVec[i]` of a header vector. The routines read the entries
`0 .. MAXHDRLINE` only, which lie inside an allocated vector; an index outside
the list reads as `NULL`. -/
def slot (v : List HDR_VEC) (i : Nat) : HDR_VEC :=
  (v.get? i).join

/-- The routines of libfits called by `hdr.c`. A routine that works in place on
the header vector returns the vector it leaves behind, next to its integer
result read as a truth value; a routine that fills a destination buffer returns
`some` of what it wrote when its result is nonzero and `none` when it is
zero. `Dbl` stands for the C type `double`. -/
structure Libfits (Dbl : Type) where
  f_akey : List HDR_VEC → String → Option String
  f_dkey : List HDR_VEC → String → Option Dbl
  f_ikey : List HDR_VEC → String → Option Int
  f_lkey : List HDR_VEC → String → Option Int
  f_getlin : List HDR_VEC → String → Option String
  f_hdel : List HDR_VEC → List HDR_VEC
  f_hldel : List HDR_VEC → Int → Bool × List HDR_VEC
  f_hlins : List HDR_VEC → Int → Int → String → Bool × List HDR_VEC
  f_hlrep : List HDR_VEC → Int → String → Bool × List HDR_VEC
  f_kdel : List HDR_VEC → String → Bool × List HDR_VEC
  f_mkakey : String → String → String → String
  f_mkdkey : String → Dbl → String → String
  f_mkikey : String → Int → String → String
  f_mklkey : String → Int → String → String

/-- The C library routine `strncmp` on the characters of two strings: compare
at most `n` characters, a string that has ended counting as the NUL
character. The characters of a C string are not NUL themselves (see
`IsCString`). -/
def strncmp : List Char → List Char → Nat → Int
  | _, _, 0 => 0
  | [], [], _ + 1 => 0
  | [], b :: _, _ + 1 => 0 - (b.toNat : Int)
  | a :: _, [], _ + 1 => (a.toNat : Int)
  | a :: s, b :: t, n + 1 =>
    if a = b then strncmp s t n else (a.toNat : Int) - (b.toNat : Int)

/-- The C library routine `strlen`. -/
def strlen (s : String) : Nat := s.data.length

/-! ## Private routines -/

/-- The routine `p_shHdrCntrIncrement`. Every caller in `hdr.c` has already
dereferenced `a_hdr`, so the header is not `NULL` here. The counter is kept
unbounded; the C field, which wraps at its maximum, holds `fieldValue` of
it. -/
def p_shHdrCntrIncrement (a_hdr : HDR) : HDR :=
  { a_hdr with modCnt := a_hdr.modCnt + 1 }

/-- The routine `p_shHdrFree`: free the header lines, not the vector. -/
def p_shHdrFree {Dbl : Type} (L : Libfits Dbl) (a_hdr : HDR) : HDR :=
  match a_hdr.hdrVec with
  | some v =>
    if slot v 0 ≠ none then
      p_shHdrCntrIncrement { a_hdr with hdrVec := some (L.f_hdel v) }
    else a_hdr
  | none => a_hdr

/-- The routine `p_shHdrMallocForVec`: allocate the vector and set the entries
`0 .. MAXHDRLINE` to `NULL`. -/
def p_shHdrMallocForVec (MAXHDRLINE : Nat) (a_hdr : HDR) : HDR :=
  p_shHdrCntrIncrement
    { a_hdr with hdrVec := some (List.replicate (MAXHDRLINE + 1) none) }

/-- The routine `p_shHdrFreeForVec`: free the lines and the vector. -/
def p_shHdrFreeForVec {Dbl : Type} (L : Libfits Dbl) (a_hdr : HDR) : HDR :=
  match a_hdr.hdrVec with
  | some _ =>
    p_shHdrCntrIncrement { p_shHdrFree L a_hdr with hdrVec := none }
  | none => a_hdr

/-- The routine `shHdrInit`. -/
def shHdrInit {Dbl : Type} (L : Libfits Dbl) (MAXHDRLINE : Nat) (a_hdr : HDR) :
    RET_CODE × HDR :=
  let h1 :=
    match a_hdr.hdrVec with
    | none => p_shHdrMallocForVec MAXHDRLINE a_hdr
    | some _ => p_shHdrFree L a_hdr
  (SH_SUCCESS, p_shHdrCntrIncrement h1)

/-- The routine `shHdrNew`; `fresh` is the content of the counter field in the
memory that `shMalloc` returns. -/
def shHdrNew (MAXHDRLINE : Nat) (fresh : Nat) : HDR :=
  p_shHdrMallocForVec MAXHDRLINE { modCnt := fresh, hdrVec := none }

/-! ## Queries -/

/-- The routine `shHdrGetAscii`. -/
def shHdrGetAscii {Dbl : Type} (L : Libfits Dbl) (a_hdr : HDR) (a_keyword : String) :
    RET_CODE × Option String :=
  match a_hdr.hdrVec with
  | none => (SH_HEADER_IS_NULL, none)
  | some v =>
    match L.f_akey v a_keyword with
    | some d => (SH_SUCCESS, some d)
    | none => (SH_GENERIC_ERROR, none)

/-- The routine `shHdrGetDbl`. -/
def shHdrGetDbl {Dbl : Type} (L : Libfits Dbl) (a_hdr : HDR) (a_keyword : String) :
    RET_CODE × Option Dbl :=
  match a_hdr.hdrVec with
  | none => (SH_HEADER_IS_NULL, none)
  | some v =>
    match L.f_dkey v a_keyword with
    | some d => (SH_SUCCESS, some d)
    | none => (SH_GENERIC_ERROR, none)

/-- The routine `shHdrGetInt`. -/
def shHdrGetInt {Dbl : Type} (L : Libfits Dbl) (a_hdr : HDR) (a_keyword : String) :
    RET_CODE × Option Int :=
  match a_hdr.hdrVec with
  | none => (SH_HEADER_IS_NULL, none)
  | some v =>
    match L.f_ikey v a_keyword with
    | some d => (SH_SUCCESS, some d)
    | none => (SH_GENERIC_ERROR, none)

/-- The routine `shHdrGetLogical`. -/
def shHdrGetLogical {Dbl : Type} (L : Libfits Dbl) (a_hdr : HDR) (a_keyword : String) :
    RET_CODE × Option Int :=
  match a_hdr.hdrVec with
  | none => (SH_HEADER_IS_NULL, none)
  | some v =>
    match L.f_lkey v a_keyword with
    | some d => (SH_SUCCESS, some d)
    | none => (SH_GENERIC_ERROR, none)

/-- The routine `shHdrGetLine`. -/
def shHdrGetLine {Dbl : Type} (L : Libfits Dbl) (a_hdr : HDR) (a_keyword : String) :
    RET_CODE × Option String :=
  match a_hdr.hdrVec with
  | none => (SH_HEADER_IS_NULL, none)
  | some v =>
    match L.f_getlin v a_keyword with
    | some d => (SH_SUCCESS, some d)
    | none => (SH_GENERIC_ERROR, none)

/-- The loop of `shHdrGetLineno`, entered at index `i` with `n` indices left
below `MAXHDRLINE`. The second component is the value stored in `*a_dest`. -/
def shHdrGetLineno.loop (v : List HDR_VEC) (a_keyword : String) (keyword_length : Nat) :
    Nat → Nat → RET_CODE × Option Nat
  | 0, _ => (SH_GENERIC_ERROR, none)
  | n + 1, i =>
    match slot v i with
    | none => (SH_GENERIC_ERROR, none)
    | some line =>
      if strncmp a_keyword.data line.data keyword_length = 0 then (SH_SUCCESS, some i)
      else shHdrGetLineno.loop v a_keyword keyword_length n (i + 1)

/-- The routine `shHdrGetLineno`. -/
def shHdrGetLineno (MAXHDRLINE : Nat) (a_hdr : HDR) (a_keyword : String) :
    RET_CODE × Option Nat :=
  match a_hdr.hdrVec with
  | none => (SH_HEADER_IS_NULL, none)
  | some v => shHdrGetLineno.loop v a_keyword (strlen a_keyword) MAXHDRLINE 0

/-- The loop of `shHdrGetLineTotal`, entered at index `i` with `n` indices left
below `MAXHDRLINE`; the result is the value of `i` when the loop is left. -/
def shHdrGetLineTotal.loop (v : List HDR_VEC) : Nat → Nat → Nat
  | 0, i => i
  | n + 1, i =>
    match slot v i with
    | none => i
    | some _ => shHdrGetLineTotal.loop v n (i + 1)

/-- The routine `shHdrGetLineTotal`; the second component is `*a_lineTotal`. -/
def shHdrGetLineTotal (MAXHDRLINE : Nat) (a_hdr : HDR) : RET_CODE × Nat :=
  match a_hdr.hdrVec with
  | some v => (SH_SUCCESS, shHdrGetLineTotal.loop v MAXHDRLINE 0)
  | none => (SH_SUCCESS, 0)

/-- The routine `shHdrGetLineCont`; the second component is the text written to
`a_dest`, if any. -/
def shHdrGetLineCont (MAXHDRLINE : Nat) (a_hdr : HDR) (a_line : Int) :
    RET_CODE × Option String :=
  match a_hdr.hdrVec with
  | none => (SH_HEADER_IS_NULL, none)
  | some v =>
    if a_line < 0 ∨ a_line ≥ (MAXHDRLINE : Int) then (SH_GENERIC_ERROR, none)
    else
      match slot v a_line.toNat with
      | some line => (SH_SUCCESS, some line)
      | none => (SH_SUCCESS, some "")

/-! ## Mutations -/

/-- The routine `shHdrDelByLine`. -/
def shHdrDelByLine {Dbl : Type} (L : Libfits Dbl) (a_hdr : HDR) (a_lineNo : Int) :
    RET_CODE × HDR :=
  match a_hdr.hdrVec with
  | none => (SH_HEADER_IS_NULL, a_hdr)
  | some v =>
    let r := L.f_hldel v a_lineNo
    if r.1 then (SH_SUCCESS, { a_hdr with hdrVec := some r.2 })
    else (SH_GENERIC_ERROR, p_shHdrCntrIncrement { a_hdr with hdrVec := some r.2 })

/-- The lazy allocation that opens `shHdrInsertLine` and the four typed
inserts: when the vector is `NULL`, call `p_shHdrMallocForVec` and then
`shHdrInit`. The result is `Except.error` with the header as it stands when the
routine returns at once (`shHdrInit(a_hdr) == 0`), and `Except.ok` with the
header otherwise. -/
def lazyAlloc {Dbl : Type} (L : Libfits Dbl) (MAXHDRLINE : Nat) (a_hdr : HDR) :
    Except HDR HDR :=
  match a_hdr.hdrVec with
  | none =>
    let r := shHdrInit L MAXHDRLINE (p_shHdrMallocForVec MAXHDRLINE a_hdr)
    if r.1.isZero then Except.error r.2 else Except.ok r.2
  | some _ => Except.ok a_hdr

/-- The routine `shHdrInsertLine`. The vector is never `NULL` at the call of
`f_hlins`; the branch for a `NULL` vector there only makes the function
total. -/
def shHdrInsertLine {Dbl : Type} (L : Libfits Dbl) (MAXHDRLINE : Nat) (a_hdr : HDR)
    (a_lineNo : Int) (a_line : String) : RET_CODE × HDR :=
  match lazyAlloc L MAXHDRLINE a_hdr with
  | Except.error h => (SH_HEADER_INSERTION_ERROR, h)
  | Except.ok h =>
    match h.hdrVec with
    | none => (SH_HEADER_INSERTION_ERROR, h)
    | some v =>
      let r := L.f_hlins v MAXHDRLINE a_lineNo a_line
      if r.1 then (SH_SUCCESS, p_shHdrCntrIncrement { h with hdrVec := some r.2 })
      else (SH_HEADER_INSERTION_ERROR, { h with hdrVec := some r.2 })

/-- The comment handed to the formatting routine: the empty string for a
`NULL` or empty comment (`a_comment == NULL || *a_comment == 0`). -/
def commentOf (a_comment : Option String) : String :=
  match a_comment with
  | none => ""
  | some c => if c.data = [] then "" else c

/-- The routine `shHdrInsertLogical`. -/
def shHdrInsertLogical {Dbl : Type} (L : Libfits Dbl) (MAXHDRLINE : Nat) (a_hdr : HDR)
    (a_key : String) (a_value : Int) (a_comment : Option String) : RET_CODE × HDR :=
  match lazyAlloc L MAXHDRLINE a_hdr with
  | Except.error h => (SH_HEADER_INSERTION_ERROR, h)
  | Except.ok h =>
    let comment := commentOf a_comment
    match h.hdrVec with
    | none => (SH_HEADER_INSERTION_ERROR, h)
    | some v =>
      let rc := L.f_hlins v MAXHDRLINE ((MAXHDRLINE : Int) + 1)
        (L.f_mklkey a_key a_value comment)
      if !rc.1 then (SH_HEADER_INSERTION_ERROR, { h with hdrVec := some rc.2 })
      else (SH_SUCCESS, p_shHdrCntrIncrement { h with hdrVec := some rc.2 })

/-- The routine `shHdrInsertDbl`. -/
def shHdrInsertDbl {Dbl : Type} (L : Libfits Dbl) (MAXHDRLINE : Nat) (a_hdr : HDR)
    (a_key : String) (a_value : Dbl) (a_comment : Option String) : RET_CODE × HDR :=
  match lazyAlloc L MAXHDRLINE a_hdr with
  | Except.error h => (SH_HEADER_INSERTION_ERROR, h)
  | Except.ok h =>
    let comment := commentOf a_comment
    match h.hdrVec with
    | none => (SH_HEADER_INSERTION_ERROR, h)
    | some v =>
      let rc := L.f_hlins v MAXHDRLINE ((MAXHDRLINE : Int) + 1)
        (L.f_mkdkey a_key a_value comment)
      if !rc.1 then (SH_HEADER_INSERTION_ERROR, { h with hdrVec := some rc.2 })
      else (SH_SUCCESS, p_shHdrCntrIncrement { h with hdrVec := some rc.2 })

/-- The routine `shHdrInsertInt`. -/
def shHdrInsertInt {Dbl : Type} (L : Libfits Dbl) (MAXHDRLINE : Nat) (a_hdr : HDR)
    (a_key : String) (a_value : Int) (a_comment : Option String) : RET_CODE × HDR :=
  match lazyAlloc L MAXHDRLINE a_hdr with
  | Except.error h => (SH_HEADER_INSERTION_ERROR, h)
  | Except.ok h =>
    let comment := commentOf a_comment
    match h.hdrVec with
    | none => (SH_HEADER_INSERTION_ERROR, h)
    | some v =>
      let rc := L.f_hlins v MAXHDRLINE ((MAXHDRLINE : Int) + 1)
        (L.f_mkikey a_key a_value comment)
      if !rc.1 then (SH_HEADER_INSERTION_ERROR, { h with hdrVec := some rc.2 })
      else (SH_SUCCESS, p_shHdrCntrIncrement { h with hdrVec := some rc.2 })

/-- The routine `shHdrInsertAscii`. -/
def shHdrInsertAscii {Dbl : Type} (L : Libfits Dbl) (MAXHDRLINE : Nat) (a_hdr : HDR)
    (a_key : String) (a_value : String) (a_comment : Option String) : RET_CODE × HDR :=
  match lazyAlloc L MAXHDRLINE a_hdr with
  | Except.error h => (SH_HEADER_INSERTION_ERROR, h)
  | Except.ok h =>
    let comment := commentOf a_comment
    match h.hdrVec with
    | none => (SH_HEADER_INSERTION_ERROR, h)
    | some v =>
      let rc := L.f_hlins v MAXHDRLINE ((MAXHDRLINE : Int) + 1)
        (L.f_mkakey a_key a_value comment)
      if !rc.1 then (SH_HEADER_INSERTION_ERROR, { h with hdrVec := some rc.2 })
      else (SH_SUCCESS, p_shHdrCntrIncrement { h with hdrVec := some rc.2 })

/-- The routine `shHdrMakeLineWithDbl`; the result is the text left in
`a_dest`. -/
def shHdrMakeLineWithDbl {Dbl : Type} (L : Libfits Dbl) (a_keyword : String)
    (a_value : Dbl) (a_comment : Option String) : String :=
  L.f_mkdkey a_keyword a_value (commentOf a_comment)

/-- The routine `shHdrMakeLineWithAscii`. -/
def shHdrMakeLineWithAscii {Dbl : Type} (L : Libfits Dbl) (a_keyword : String)
    (a_value : String) (a_comment : Option String) : String :=
  L.f_mkakey a_keyword a_value (commentOf a_comment)

/-- The routine `shHdrMakeLineWithInt`. -/
def shHdrMakeLineWithInt {Dbl : Type} (L : Libfits Dbl) (a_keyword : String)
    (a_value : Int) (a_comment : Option String) : String :=
  L.f_mkikey a_keyword a_value (commentOf a_comment)

/-- The routine `shHdrMakeLineWithLogical`. -/
def shHdrMakeLineWithLogical {Dbl : Type} (L : Libfits Dbl) (a_keyword : String)
    (a_value : Int) (a_comment : Option String) : String :=
  L.f_mklkey a_keyword a_value (commentOf a_comment)

/-- The routine `shHdrReplaceLine`. -/
def shHdrReplaceLine {Dbl : Type} (L : Libfits Dbl) (a_hdr : HDR) (a_lineNo : Int)
    (a_line : String) : RET_CODE × HDR :=
  match a_hdr.hdrVec with
  | none => (SH_HEADER_IS_NULL, a_hdr)
  | some v =>
    let r := L.f_hlrep v a_lineNo a_line
    if r.1 = false then (SH_GENERIC_ERROR, { a_hdr with hdrVec := some r.2 })
    else (SH_SUCCESS, p_shHdrCntrIncrement { a_hdr with hdrVec := some r.2 })

/-- One pass of the body of the loop of `shHdrCopy` at index `i`: a line of the
source is duplicated into the same entry of the destination vector. -/
def shHdrCopy.body (inVec : List HDR_VEC) (outVec : List HDR_VEC) (i : Nat) :
    List HDR_VEC :=
  match slot inVec i with
  | some line => outVec.set i (some line)
  | none => outVec

/-- The routine `shHdrCopy`, for a source and a destination that are two
different headers. The result is the return code and the destination. -/
def shHdrCopy {Dbl : Type} (L : Libfits Dbl) (MAXHDRLINE : Nat) (a_inHdr a_outHdr : HDR) :
    RET_CODE × HDR :=
  match a_inHdr.hdrVec with
  | none => (SH_HEADER_IS_NULL, a_outHdr)
  | some inVec =>
    let h1 :=
      match a_outHdr.hdrVec with
      | none => p_shHdrMallocForVec MAXHDRLINE a_outHdr
      | some _ => p_shHdrFree L a_outHdr
    let h2 : HDR :=
      { h1 with
        hdrVec := h1.hdrVec.map fun outVec =>
          (List.range MAXHDRLINE).foldl (shHdrCopy.body inVec) outVec }
    (SH_SUCCESS, p_shHdrCntrIncrement h2)

/-- The routine `shHdrDelByKeyword`. -/
def shHdrDelByKeyword {Dbl : Type} (L : Libfits Dbl) (a_hdr : HDR) (a_keyword : String) :
    RET_CODE × HDR :=
  match a_hdr.hdrVec with
  | none => (SH_HEADER_IS_NULL, a_hdr)
  | some v =>
    let r := L.f_kdel v a_keyword
    if r.1 then (SH_SUCCESS, p_shHdrCntrIncrement { a_hdr with hdrVec := some r.2 })
    else (SH_GENERIC_ERROR, { a_hdr with hdrVec := some r.2 })

/-! ## Notions used to state the properties -/

/-- The number `n` is the index of the first absent entry among
`0 .. MAXHDRLINE - 1`, or `MAXHDRLINE` when none of them is absent. -/
def IsFirstAbsent (MAXHDRLINE : Nat) (v : List HDR_VEC) (n : Nat) : Prop :=
  n ≤ MAXHDRLINE ∧ (∀ j, j < n → slot v j ≠ none) ∧ (n < MAXHDRLINE → slot v n = none)

/-- The text of entry `i` has the keyword as a prefix, character by
character; an absent entry has no text. -/
def HasPrefix (v : List HDR_VEC) (k : String) (i : Nat) : Prop :=
  ∃ line, slot v i = some line ∧ k.data <+: line.data

/-- Contiguity: among the entries `0 .. MAXHDRLINE - 1` no absent entry comes
before a present one. -/
def Contiguous (MAXHDRLINE : Nat) (v : List HDR_VEC) : Prop :=
  ∀ i j, i < j → j < MAXHDRLINE → slot v i = none → slot v j = none

/-- The text of entry `j` compares equal to the keyword under the `strncmp`
call of `shHdrGetLineno`. -/
def Hit (v : List HDR_VEC) (k : String) (j : Nat) : Prop :=
  ∃ line, slot v j = some line ∧ strncmp k.data line.data (strlen k) = 0

/-- The routine `f_hdel` clears the vector `v`: it leaves a vector of the same
size in which the entries `0 .. MAXHDRLINE - 1` are all absent. -/
def ClearsLines {Dbl : Type} (L : Libfits Dbl) (MAXHDRLINE : Nat) (v : List HDR_VEC) : Prop :=
  (L.f_hdel v).length = v.length ∧ ∀ i, i < MAXHDRLINE → slot (L.f_hdel v) i = none

/-- The vector on which an insert calls `f_hlins`: the vector of the header,
or, when the header has none, a vector of `MAXHDRLINE + 1` absent entries. -/
def spliceVec (MAXHDRLINE : Nat) (a_hdr : HDR) : List HDR_VEC :=
  match a_hdr.hdrVec with
  | some v => v
  | none => List.replicate (MAXHDRLINE + 1) none

/-- The counter of a header at the moment an insert calls `f_hlins`. -/
def spliceCnt (a_hdr : HDR) : Nat :=
  match a_hdr.hdrVec with
  | some _ => a_hdr.modCnt
  | none => a_hdr.modCnt + 2

/-- The outcome `r` of an insert into the header `a_hdr` whose call of
`f_hlins` had the result `acc`: `SH_SUCCESS` when the line was accepted,
`SH_HEADER_INSERTION_ERROR` when it was rejected, and on
`SH_HEADER_INSERTION_ERROR` the counter is the one before the call when the
header had a vector, and that counter plus 2 when it had none. -/
def InsertOutcome (a_hdr : HDR) (acc : Bool) (r : RET_CODE × HDR) : Prop :=
  (acc = true → r.1 = SH_SUCCESS) ∧
  (acc = false → r.1 = SH_HEADER_INSERTION_ERROR) ∧
  (r.1 = SH_HEADER_INSERTION_ERROR →
    (a_hdr.hdrVec ≠ none → r.2.modCnt = a_hdr.modCnt) ∧
    (a_hdr.hdrVec = none → r.2.modCnt = a_hdr.modCnt + 2))

/-- A C string holds no NUL character: the NUL ends it. -/
def IsCString (s : String) : Prop :=
  ∀ c ∈ s.data, c.toNat ≠ 0

instance (s : String) : Decidable (IsCString s) := by
  unfold IsCString; infer_instance

/-- The number of lines before the first `NULL` entry of a vector. -/
def leading (v : List HDR_VEC) : Nat :=
  (v.takeWhile fun x => x.isSome).length

/-- A small libfits for concrete evaluations. The value routines find nothing;
`f_hdel` frees the lines up to the first `NULL` entry; `f_hlins` rejects a
negative line number and a header that already holds `maxlines` lines, and
otherwise puts the line after the last one; `f_hldel` and `f_hlrep` accept the
number of a line that is there; `f_kdel` deletes the first line that starts
with the keyword; the formatting routines write keyword, value marker and
comment one after the other. -/
def demoFits : Libfits Int where
  f_akey := fun _ _ => none
  f_dkey := fun _ _ => none
  f_ikey := fun _ _ => none
  f_lkey := fun _ _ => none
  f_getlin := fun _ _ => none
  f_hdel := fun v => List.replicate (leading v) none ++ v.drop (leading v)
  f_hldel := fun v n =>
    if 0 ≤ n ∧ n.toNat < leading v then (true, v.eraseIdx n.toNat ++ [none])
    else (false, v)
  f_hlins := fun v maxlines n line =>
    if n < 0 ∨ maxlines ≤ (leading v : Int) then (false, v)
    else (true, v.set (leading v) (some line))
  f_hlrep := fun v n line =>
    if 0 ≤ n ∧ n.toNat < leading v then (true, v.set n.toNat (some line))
    else (false, v)
  f_kdel := fun v k =>
    match (v.take (leading v)).findIdx? fun x =>
        decide (∃ line, x = some line ∧ k.data <+: line.data) with
    | some i => (true, v.eraseIdx i ++ [none])
    | none => (false, v)
  f_mkakey := fun k x c => k ++ "= '" ++ x ++ "' /" ++ c
  f_mkdkey := fun k _ c => k ++ "= D /" ++ c
  f_mkikey := fun k _ c => k ++ "= I /" ++ c
  f_mklkey := fun k _ c => k ++ "= L /" ++ c

/-- What an insert into a header without vector comes to, `cnt` being the
counter before the call: `f_hlins` is called on a vector of `MAXHDRLINE + 1`
absent entries, after the two increments of the allocation; an accepted line
gives `SH_SUCCESS` and one more increment, a rejected line gives
`SH_HEADER_INSERTION_ERROR`. -/
def insertIntoFresh {Dbl : Type} (L : Libfits Dbl) (MAXHDRLINE : Nat) (cnt : Nat)
    (a_lineNo : Int) (a_line : String) : RET_CODE × HDR :=
  if (L.f_hlins (List.replicate (MAXHDRLINE + 1) none) MAXHDRLINE a_lineNo a_line).1 then
    (SH_SUCCESS, HDR.mk (cnt + 3)
      (some (L.f_hlins (List.replicate (MAXHDRLINE + 1) none) MAXHDRLINE a_lineNo a_line).2))
  else
    (SH_HEADER_INSERTION_ERROR, HDR.mk (cnt + 2)
      (some (L.f_hlins (List.replicate (MAXHDRLINE + 1) none) MAXHDRLINE a_lineNo a_line).2))

/-- Contiguity of a header: its vector, if it has one, is contiguous. -/
def ContiguousHdr (MAXHDRLINE : Nat) (a_hdr : HDR) : Prop :=
  ∀ v, a_hdr.hdrVec = some v → Contiguous MAXHDRLINE v

/-- The routine `f`, which works in place on the header vector, preserves
contiguity on the vector `v`. -/
def PreservesOn (MAXHDRLINE : Nat) (f : List HDR_VEC → List HDR_VEC) (v : List HDR_VEC) :
    Prop :=
  Contiguous MAXHDRLINE v → Contiguous MAXHDRLINE (f v)

/-- Modelled from the spec: the libfits routine `f_hlins` is not among the
sources. For the line number `MAXHDRLINE + 1` that the typed inserts pass, the
spec has the line go to the end of the current contents, respecting the
capacity: the line is rejected when the header already holds `maxlines` lines,
and otherwise it is stored in the first absent entry. -/
def specAppend (v : List HDR_VEC) (maxlines : Int) (line : String) : Bool × List HDR_VEC :=
  if maxlines ≤ (leading v : Int) then (false, v)
  else (true, v.set (leading v) (some line))

/-- The index of the first line, before the first `NULL` entry, that matches
the keyword; `isKey k line` tells whether `line` matches `k`. -/
def findKey (isKey : String → String → Bool) (k : String) : List HDR_VEC → Option Nat
  | [] => none
  | none :: _ => none
  | some line :: rest =>
    if isKey k line then some 0 else (findKey isKey k rest).map fun i => i + 1

/-- Modelled from the spec: the libfits routine `f_kdel` is not among the
sources. The spec has it find and remove the first line matching the keyword
and shift the later lines up by one position, and report whether a line was
removed; the entry that the shift frees at the end of the vector is `NULL`.
How a line matches a keyword is left to `isKey`. -/
def specDeleteByKeyword (isKey : String → String → Bool) (v : List HDR_VEC) (k : String) :
    Bool × List HDR_VEC :=
  match findKey isKey k v with
  | some i => (true, v.eraseIdx i ++ [none])
  | none => (false, v)

/-- The libfits `demoFits` with `f_hlins` and `f_kdel` replaced by the routines
modelled from the spec; a line matches a keyword when it starts with it. -/
def specFits : Libfits Int :=
  { demoFits with
    f_hlins := fun v maxlines _ line => specAppend v maxlines line
    f_kdel := specDeleteByKeyword fun k line => decide (k.data <+: line.data) }

/-- One call of a typed insert, with its key, value and comment. -/
inductive TypedInsert (Dbl : Type) where
  | ascii (key value : String) (comment : Option String)
  | dbl (key : String) (value : Dbl) (comment : Option String)
  | int (key : String) (value : Int) (comment : Option String)
  | logical (key : String) (value : Int) (comment : Option String)

/-- Make the call of a typed insert on a header. -/
def TypedInsert.call {Dbl : Type} (L : Libfits Dbl) (MAXHDRLINE : Nat) (a_hdr : HDR) :
    TypedInsert Dbl → RET_CODE × HDR
  | .ascii k x c => shHdrInsertAscii L MAXHDRLINE a_hdr k x c
  | .dbl k x c => shHdrInsertDbl L MAXHDRLINE a_hdr k x c
  | .int k x c => shHdrInsertInt L MAXHDRLINE a_hdr k x c
  | .logical k x c => shHdrInsertLogical L MAXHDRLINE a_hdr k x c

/-- The line that a typed insert hands to `f_hlins`. -/
def TypedInsert.line {Dbl : Type} (L : Libfits Dbl) : TypedInsert Dbl → String
  | .ascii k x c => L.f_mkakey k x (commentOf c)
  | .dbl k x c => L.f_mkdkey k x (commentOf c)
  | .int k x c => L.f_mkikey k x (commentOf c)
  | .logical k x c => L.f_mklkey k x (commentOf c)

/-- Make the calls of a list of typed inserts one after the other, each on the
header the one before has left; the result is the list of the return codes and
the last header. -/
def callInserts {Dbl : Type} (L : Libfits Dbl) (MAXHDRLINE : Nat) :
    HDR → List (TypedInsert Dbl) → List RET_CODE × HDR
  | a_hdr, [] => ([], a_hdr)
  | a_hdr, c :: cs =>
    ((c.call L MAXHDRLINE a_hdr).1 :: (callInserts L MAXHDRLINE (c.call L MAXHDRLINE a_hdr).2 cs).1,
      (callInserts L MAXHDRLINE (c.call L MAXHDRLINE a_hdr).2 cs).2)

/-- The vector `v` holds exactly `c` lines: the entries below `c` are present
and all the others are absent. -/
def HoldsLines (v : List HDR_VEC) (c : Nat) : Prop :=
  (∀ j, j < c → slot v j ≠ none) ∧ (∀ j, c ≤ j → slot v j = none)

/-- The counter after an insert with result `r` into the header `a_hdr`: the
result is `SH_SUCCESS` or `SH_HEADER_INSERTION_ERROR`; on a header that had a
vector the counter has grown by 1 after `SH_SUCCESS` and by 0 after
`SH_HEADER_INSERTION_ERROR`; on a header that had none it has grown by 3 after
`SH_SUCCESS` and by 2 after `SH_HEADER_INSERTION_ERROR`, and the header has a
vector afterwards. -/
def InsertCounter (a_hdr : HDR) (r : RET_CODE × HDR) : Prop :=
  (r.1 = SH_SUCCESS ∨ r.1 = SH_HEADER_INSERTION_ERROR) ∧
  (a_hdr.hdrVec ≠ none →
    (r.1 = SH_SUCCESS → r.2.modCnt = a_hdr.modCnt + 1) ∧
    (r.1 = SH_HEADER_INSERTION_ERROR → r.2.modCnt = a_hdr.modCnt)) ∧
  (a_hdr.hdrVec = none →
    (r.1 = SH_SUCCESS → r.2.modCnt = a_hdr.modCnt + 3) ∧
    (r.1 = SH_HEADER_INSERTION_ERROR → r.2.modCnt = a_hdr.modCnt + 2) ∧
    r.2.hdrVec ≠ none)

/-- After a refused insert of the line `t` at `m`, with result `r`, into a
header `a_hdr` that had no vector, the header holds the vector `f_hlins` has
left of the `MAXHDRLINE + 1` absent entries; if `f_hlins` has left them as they
were, the header has a vector without any line and its counter is 2 more than
before. -/
def LeftEmptyOnReject {Dbl : Type} (L : Libfits Dbl) (MAXHDRLINE : Nat) (a_hdr : HDR)
    (m : Int) (t : String) (r : RET_CODE × HDR) : Prop :=
  a_hdr.hdrVec = none → r.1 = SH_HEADER_INSERTION_ERROR →
    r.2.hdrVec = some (L.f_hlins (List.replicate (MAXHDRLINE + 1) none) MAXHDRLINE m t).2 ∧
    ((L.f_hlins (List.replicate (MAXHDRLINE + 1) none) MAXHDRLINE m t).2
        = List.replicate (MAXHDRLINE + 1) none →
      r.2 = HDR.mk (a_hdr.modCnt + 2) (some (List.replicate (MAXHDRLINE + 1) none)))

/-- Modelled from the spec: the libfits routine `f_akey` is not among the
sources. The spec has it scan the lines and extract the value of the first
line matching the keyword. `isKey k line` tells whether `line` matches `k` and
`valueOf line` is the value the codec reads from `line`; the scan ends at the
first `NULL` entry. -/
def specLookup {α : Type} (isKey : String → String → Bool) (valueOf : String → Option α)
    (v : List HDR_VEC) (k : String) : Option α :=
  match findKey isKey k v with
  | some i => (slot v i).bind valueOf
  | none => none

/-- The text between the first two apostrophes of a line, if the line has an
apostrophe. -/
def quoted (line : String) : Option String :=
  if line.data.any (fun ch => ch = Char.ofNat 39) then
    some (String.mk
      (((line.data.dropWhile fun ch => ch ≠ Char.ofNat 39).drop 1).takeWhile
        fun ch => ch ≠ Char.ofNat 39))
  else none

/-- The libfits `specFits` with `f_akey` replaced by the routine modelled from
the spec: a line matches a keyword when it starts with it, and its value is the
text between its apostrophes. -/
def codecFits : Libfits Int :=
  { specFits with
    f_akey := specLookup (fun k line => decide (k.data <+: line.data)) quoted }

/-- The value that the C field `modCnt`, of `width` bits, holds when the
counter stands at `n`: the field wraps at its maximum. The type of the field is
declared in a header file that is not among the sources, so its width is an
argument. -/
def fieldValue (width : Nat) (n : Nat) : Nat :=
  n % 2 ^ width

/-! ## Auxiliary facts -/

theorem strncmp_eq_zero_iff (k l : List Char) (hk : ∀ c ∈ k, c.toNat ≠ 0) :
    strncmp k l k.length = 0 ↔ k <+: l := by
  induction k generalizing l with
  | nil => simp [strncmp]
  | cons a s ih =>
    have ha : a.toNat ≠ 0 := hk a (List.mem_cons_self _ _)
    have hs : ∀ c ∈ s, c.toNat ≠ 0 := fun c hc => hk c (List.mem_cons_of_mem _ hc)
    cases l with
    | nil =>
      simp only [List.length_cons, strncmp]
      constructor
      · intro h; exact absurd (by exact_mod_cast h) ha
      · intro h; simp at h
    | cons b t =>
      simp only [List.length_cons, strncmp]
      by_cases hab : a = b
      · subst hab
        simp [ih t hs, List.cons_prefix_cons]
      · simp only [hab, if_false, List.cons_prefix_cons, false_and, iff_false]
        intro h
        apply hab
        have h2 : (a.toNat : Int) = (b.toNat : Int) := by omega
        have h3 : a.toNat = b.toNat := by exact_mod_cast h2
        exact Char.ext (UInt32.ext (by simpa [Char.toNat, UInt32.toNat] using h3))

theorem hit_iff_hasPrefix (v : List HDR_VEC) (k : String) (hk : IsCString k) (j : Nat) :
    Hit v k j ↔ HasPrefix v k j := by
  unfold Hit HasPrefix strlen
  constructor
  · rintro ⟨line, h1, h2⟩
    exact ⟨line, h1, (strncmp_eq_zero_iff _ _ hk).1 h2⟩
  · rintro ⟨line, h1, h2⟩
    exact ⟨line, h1, (strncmp_eq_zero_iff _ _ hk).2 h2⟩

theorem getLineno_loop_spec (v : List HDR_VEC) (k : String) : ∀ n i,
    (∃ m, i ≤ m ∧ m < i + n ∧ (∀ j, i ≤ j → j ≤ m → slot v j ≠ none) ∧
        (∀ j, i ≤ j → j < m → ¬ Hit v k j) ∧ Hit v k m ∧
        shHdrGetLineno.loop v k (strlen k) n i = (SH_SUCCESS, some m)) ∨
    (∃ m, i ≤ m ∧ m ≤ i + n ∧ (∀ j, i ≤ j → j < m → slot v j ≠ none) ∧
        (∀ j, i ≤ j → j < m → ¬ Hit v k j) ∧ (m < i + n → slot v m = none) ∧
        shHdrGetLineno.loop v k (strlen k) n i = (SH_GENERIC_ERROR, none)) := by
  intro n
  induction n with
  | zero =>
    intro i
    right
    refine ⟨i, le_refl _, by omega, ?_, ?_, by omega, by simp [shHdrGetLineno.loop]⟩
    · intro j h1 h2; omega
    · intro j h1 h2; omega
  | succ n ih =>
    intro i
    cases hs : slot v i with
    | none =>
      right
      refine ⟨i, le_refl _, by omega, ?_, ?_, fun _ => hs, by simp [shHdrGetLineno.loop, hs]⟩
      · intro j h1 h2; omega
      · intro j h1 h2; omega
    | some line =>
      by_cases hc : strncmp k.data line.data (strlen k) = 0
      · left
        refine ⟨i, le_refl _, by omega, ?_, ?_, ⟨line, hs, hc⟩, by simp [shHdrGetLineno.loop, hs, hc]⟩
        · intro j h1 h2
          have : j = i := by omega
          subst this; simp [hs]
        · intro j h1 h2; omega
      · have hnot : ¬ Hit v k i := by
          rintro ⟨l2, h1, h2⟩
          rw [hs] at h1
          cases h1
          exact hc h2
        have hloop : shHdrGetLineno.loop v k (strlen k) (n + 1) i
            = shHdrGetLineno.loop v k (strlen k) n (i + 1) := by
          simp [shHdrGetLineno.loop, hs, hc]
        rcases ih (i + 1) with ⟨m, h1, h2, h3, h4, h5, h6⟩ | ⟨m, h1, h2, h3, h4, h5, h6⟩
        · left
          refine ⟨m, by omega, by omega, ?_, ?_, h5, by rw [hloop, h6]⟩
          · intro j hj1 hj2
            by_cases hji : j = i
            · subst hji; simp [hs]
            · exact h3 j (by omega) hj2
          · intro j hj1 hj2
            by_cases hji : j = i
            · subst hji; exact hnot
            · exact h4 j (by omega) hj2
        · right
          refine ⟨m, by omega, by omega, ?_, ?_, ?_, by rw [hloop, h6]⟩
          · intro j hj1 hj2
            by_cases hji : j = i
            · subst hji; simp [hs]
            · exact h3 j (by omega) hj2
          · intro j hj1 hj2
            by_cases hji : j = i
            · subst hji; exact hnot
            · exact h4 j (by omega) hj2
          · intro h; exact h5 (by omega)

theorem getLineTotal_loop_spec (v : List HDR_VEC) : ∀ n i,
    i ≤ shHdrGetLineTotal.loop v n i ∧ shHdrGetLineTotal.loop v n i ≤ i + n ∧
    (∀ j, i ≤ j → j < shHdrGetLineTotal.loop v n i → slot v j ≠ none) ∧
    (shHdrGetLineTotal.loop v n i < i + n → slot v (shHdrGetLineTotal.loop v n i) = none) := by
  intro n
  induction n with
  | zero =>
    intro i
    simp only [shHdrGetLineTotal.loop]
    refine ⟨le_refl _, by omega, ?_, by omega⟩
    intro j h1 h2; omega
  | succ n ih =>
    intro i
    cases hs : slot v i with
    | none =>
      have hl : shHdrGetLineTotal.loop v (n + 1) i = i := by
        simp [shHdrGetLineTotal.loop, hs]
      rw [hl]
      refine ⟨le_refl _, by omega, ?_, fun _ => hs⟩
      intro j h1 h2; omega
    | some line =>
      have hl : shHdrGetLineTotal.loop v (n + 1) i = shHdrGetLineTotal.loop v n (i + 1) := by
        simp [shHdrGetLineTotal.loop, hs]
      rw [hl]
      obtain ⟨h1, h2, h3, h4⟩ := ih (i + 1)
      refine ⟨by omega, by omega, ?_, fun h => h4 (by omega)⟩
      intro j hj1 hj2
      by_cases hji : j = i
      · subst hji; simp [hs]
      · exact h3 j (by omega) hj2

theorem isFirstAbsent_unique (MAXHDRLINE : Nat) (v : List HDR_VEC) (a b : Nat)
    (ha : IsFirstAbsent MAXHDRLINE v a) (hb : IsFirstAbsent MAXHDRLINE v b) : a = b := by
  obtain ⟨a1, a2, a3⟩ := ha
  obtain ⟨b1, b2, b3⟩ := hb
  rcases Nat.lt_trichotomy a b with h | h | h
  · exact absurd (a3 (by omega)) (b2 a h)
  · exact h
  · exact absurd (b3 (by omega)) (a2 b h)

theorem getLineno_cases (MAXHDRLINE : Nat) (a_hdr : HDR) (v : List HDR_VEC)
    (hv : a_hdr.hdrVec = some v) (k : String) (n : Nat)
    (hn : IsFirstAbsent MAXHDRLINE v n) :
    (∃ m, m < n ∧ Hit v k m ∧ (∀ j, j < m → ¬ Hit v k j) ∧
        shHdrGetLineno MAXHDRLINE a_hdr k = (SH_SUCCESS, some m)) ∨
    ((∀ j, j < n → ¬ Hit v k j) ∧
        shHdrGetLineno MAXHDRLINE a_hdr k = (SH_GENERIC_ERROR, none)) := by
  have hdef : shHdrGetLineno MAXHDRLINE a_hdr k
      = shHdrGetLineno.loop v k (strlen k) MAXHDRLINE 0 := by
    simp [shHdrGetLineno, hv]
  obtain ⟨n1, n2, n3⟩ := hn
  rcases getLineno_loop_spec v k MAXHDRLINE 0 with
    ⟨m, _, h2, h3, h4, h5, h6⟩ | ⟨m, _, h2, h3, h4, h5, h6⟩
  · left
    refine ⟨m, ?_, h5, fun j hj => h4 j (Nat.zero_le _) hj, by rw [hdef, h6]⟩
    by_contra hlt
    exact h3 n (Nat.zero_le _) (by omega) (n3 (by omega))
  · right
    have hmn : m = n :=
      isFirstAbsent_unique MAXHDRLINE v m n
        ⟨by omega, fun j hj => h3 j (Nat.zero_le _) hj, fun h => h5 (by omega)⟩ ⟨n1, n2, n3⟩
    subst hmn
    exact ⟨fun j hj => h4 j (Nat.zero_le _) hj, by rw [hdef, h6]⟩

theorem slot_set (v : List HDR_VEC) (i j : Nat) (x : HDR_VEC) :
    slot (v.set i x) j = if j = i ∧ i < v.length then x else slot v j := by
  unfold slot
  by_cases hji : j = i
  · subst hji
    by_cases hlt : j < v.length
    · simp [hlt]
    · have h1 : (v.set j x)[j]? = none := List.getElem?_eq_none (by simp; omega)
      have h2 : v[j]? = none := List.getElem?_eq_none (by omega)
      simp [hlt, h1, h2]
  · have hij : i ≠ j := fun h => hji h.symm
    simp [hji, List.getElem?_set_ne hij]

theorem slot_replicate_none (n i : Nat) : slot (List.replicate n none) i = none := by
  unfold slot
  by_cases h : i < n
  · simp [List.getElem?_replicate, h]
  · simp [List.getElem?_replicate, h]

theorem copy_body_length (inVec outVec : List HDR_VEC) (i : Nat) :
    (shHdrCopy.body inVec outVec i).length = outVec.length := by
  unfold shHdrCopy.body
  cases slot inVec i <;> simp

theorem copy_loop_spec (inVec outVec : List HDR_VEC) : ∀ m, m ≤ outVec.length →
    ((List.range m).foldl (shHdrCopy.body inVec) outVec).length = outVec.length ∧
    ∀ i, slot ((List.range m).foldl (shHdrCopy.body inVec) outVec) i
      = if i < m ∧ slot inVec i ≠ none then slot inVec i else slot outVec i := by
  intro m
  induction m with
  | zero => intro _; simp
  | succ m ih =>
    intro hm
    obtain ⟨hlen, hslot⟩ := ih (by omega)
    rw [List.range_succ, List.foldl_append]
    simp only [List.foldl_cons, List.foldl_nil]
    refine ⟨by rw [copy_body_length, hlen], ?_⟩
    intro i
    generalize (List.range m).foldl (shHdrCopy.body inVec) outVec = acc at hlen hslot
    cases hs : slot inVec m with
    | none =>
      have hb : shHdrCopy.body inVec acc m = acc := by simp [shHdrCopy.body, hs]
      rw [hb, hslot i]
      by_cases him : i = m
      · subst him; simp [hs]
      · have : (i < m + 1) ↔ (i < m) := by omega
        simp [this]
    | some line =>
      have hb : shHdrCopy.body inVec acc m = acc.set m (some line) := by
        simp [shHdrCopy.body, hs]
      rw [hb, slot_set, hlen]
      by_cases him : i = m
      · subst him
        have : i < outVec.length := by omega
        simp [this, hs]
      · rw [hslot i]
        have : (i < m + 1) ↔ (i < m) := by omega
        simp [him, this]

theorem lazyAlloc_eq {Dbl : Type} (L : Libfits Dbl) (MAXHDRLINE : Nat) (a_hdr : HDR) :
    lazyAlloc L MAXHDRLINE a_hdr
      = Except.ok (HDR.mk (spliceCnt a_hdr) (some (spliceVec MAXHDRLINE a_hdr))) := by
  cases hv : a_hdr.hdrVec with
  | none =>
    simp [lazyAlloc, hv, shHdrInit, p_shHdrMallocForVec, p_shHdrCntrIncrement, p_shHdrFree,
      slot_replicate_none, RET_CODE.isZero, spliceCnt, spliceVec]
  | some v =>
    cases a_hdr
    simp_all [lazyAlloc, spliceCnt, spliceVec]

theorem insertLine_eq {Dbl : Type} (L : Libfits Dbl) (MAXHDRLINE : Nat) (a_hdr : HDR)
    (a_lineNo : Int) (a_line : String) :
    shHdrInsertLine L MAXHDRLINE a_hdr a_lineNo a_line
      = if (L.f_hlins (spliceVec MAXHDRLINE a_hdr) MAXHDRLINE a_lineNo a_line).1 then
          (SH_SUCCESS, HDR.mk (spliceCnt a_hdr + 1)
            (some (L.f_hlins (spliceVec MAXHDRLINE a_hdr) MAXHDRLINE a_lineNo a_line).2))
        else
          (SH_HEADER_INSERTION_ERROR, HDR.mk (spliceCnt a_hdr)
            (some (L.f_hlins (spliceVec MAXHDRLINE a_hdr) MAXHDRLINE a_lineNo a_line).2)) := by
  simp only [shHdrInsertLine, lazyAlloc_eq, p_shHdrCntrIncrement]

theorem insertLogical_eq {Dbl : Type} (L : Libfits Dbl) (MAXHDRLINE : Nat) (a_hdr : HDR)
    (a_key : String) (a_value : Int) (a_comment : Option String) :
    shHdrInsertLogical L MAXHDRLINE a_hdr a_key a_value a_comment
      = shHdrInsertLine L MAXHDRLINE a_hdr ((MAXHDRLINE : Int) + 1)
          (L.f_mklkey a_key a_value (commentOf a_comment)) := by
  simp only [shHdrInsertLogical, shHdrInsertLine, lazyAlloc_eq]
  cases (L.f_hlins (spliceVec MAXHDRLINE a_hdr) MAXHDRLINE ((MAXHDRLINE : Int) + 1)
    (L.f_mklkey a_key a_value (commentOf a_comment))).1 <;> simp

theorem insertDbl_eq {Dbl : Type} (L : Libfits Dbl) (MAXHDRLINE : Nat) (a_hdr : HDR)
    (a_key : String) (a_value : Dbl) (a_comment : Option String) :
    shHdrInsertDbl L MAXHDRLINE a_hdr a_key a_value a_comment
      = shHdrInsertLine L MAXHDRLINE a_hdr ((MAXHDRLINE : Int) + 1)
          (L.f_mkdkey a_key a_value (commentOf a_comment)) := by
  simp only [shHdrInsertDbl, shHdrInsertLine, lazyAlloc_eq]
  cases (L.f_hlins (spliceVec MAXHDRLINE a_hdr) MAXHDRLINE ((MAXHDRLINE : Int) + 1)
    (L.f_mkdkey a_key a_value (commentOf a_comment))).1 <;> simp

theorem insertInt_eq {Dbl : Type} (L : Libfits Dbl) (MAXHDRLINE : Nat) (a_hdr : HDR)
    (a_key : String) (a_value : Int) (a_comment : Option String) :
    shHdrInsertInt L MAXHDRLINE a_hdr a_key a_value a_comment
      = shHdrInsertLine L MAXHDRLINE a_hdr ((MAXHDRLINE : Int) + 1)
          (L.f_mkikey a_key a_value (commentOf a_comment)) := by
  simp only [shHdrInsertInt, shHdrInsertLine, lazyAlloc_eq]
  cases (L.f_hlins (spliceVec MAXHDRLINE a_hdr) MAXHDRLINE ((MAXHDRLINE : Int) + 1)
    (L.f_mkikey a_key a_value (commentOf a_comment))).1 <;> simp

theorem insertAscii_eq {Dbl : Type} (L : Libfits Dbl) (MAXHDRLINE : Nat) (a_hdr : HDR)
    (a_key : String) (a_value : String) (a_comment : Option String) :
    shHdrInsertAscii L MAXHDRLINE a_hdr a_key a_value a_comment
      = shHdrInsertLine L MAXHDRLINE a_hdr ((MAXHDRLINE : Int) + 1)
          (L.f_mkakey a_key a_value (commentOf a_comment)) := by
  simp only [shHdrInsertAscii, shHdrInsertLine, lazyAlloc_eq]
  cases (L.f_hlins (spliceVec MAXHDRLINE a_hdr) MAXHDRLINE ((MAXHDRLINE : Int) + 1)
    (L.f_mkakey a_key a_value (commentOf a_comment))).1 <;> simp

theorem insertLine_outcome {Dbl : Type} (L : Libfits Dbl) (MAXHDRLINE : Nat) (a_hdr : HDR)
    (a_lineNo : Int) (a_line : String) :
    ((L.f_hlins (spliceVec MAXHDRLINE a_hdr) MAXHDRLINE a_lineNo a_line).1 = true →
      (shHdrInsertLine L MAXHDRLINE a_hdr a_lineNo a_line).1 = SH_SUCCESS ∧
      (shHdrInsertLine L MAXHDRLINE a_hdr a_lineNo a_line).2.modCnt = spliceCnt a_hdr + 1) ∧
    ((L.f_hlins (spliceVec MAXHDRLINE a_hdr) MAXHDRLINE a_lineNo a_line).1 = false →
      (shHdrInsertLine L MAXHDRLINE a_hdr a_lineNo a_line).1 = SH_HEADER_INSERTION_ERROR ∧
      (shHdrInsertLine L MAXHDRLINE a_hdr a_lineNo a_line).2.modCnt = spliceCnt a_hdr) := by
  rw [insertLine_eq]
  constructor <;> intro h <;> simp [h]

theorem spliceCnt_ge (a_hdr : HDR) : a_hdr.modCnt ≤ spliceCnt a_hdr := by
  unfold spliceCnt
  cases a_hdr.hdrVec <;> simp

theorem free_modCnt {Dbl : Type} (L : Libfits Dbl) (a_hdr : HDR) :
    (p_shHdrFree L a_hdr).modCnt = a_hdr.modCnt ∨
      (p_shHdrFree L a_hdr).modCnt = a_hdr.modCnt + 1 := by
  unfold p_shHdrFree
  cases hv : a_hdr.hdrVec with
  | none => simp
  | some v =>
    by_cases h0 : slot v 0 = none
    · simp [h0]
    · simp [h0, p_shHdrCntrIncrement]

theorem insertLine_insertOutcome {Dbl : Type} (L : Libfits Dbl) (MAXHDRLINE : Nat)
    (a_hdr : HDR) (a_lineNo : Int) (a_line : String) :
    InsertOutcome a_hdr (L.f_hlins (spliceVec MAXHDRLINE a_hdr) MAXHDRLINE a_lineNo a_line).1
      (shHdrInsertLine L MAXHDRLINE a_hdr a_lineNo a_line) := by
  unfold InsertOutcome
  rw [insertLine_eq]
  cases hacc : (L.f_hlins (spliceVec MAXHDRLINE a_hdr) MAXHDRLINE a_lineNo a_line).1
  · simp only [Bool.false_eq_true, if_false, false_implies, true_implies, true_and]
    constructor
    · intro hv
      cases hh : a_hdr.hdrVec with
      | none => exact absurd hh hv
      | some v => simp [spliceCnt, hh]
    · intro hv
      simp [spliceCnt, hv]
  · simp

theorem commentOf_none : commentOf none = "" := rfl

theorem commentOf_empty : commentOf (some "") = "" := by
  simp [commentOf]

theorem commentOf_nonempty (c : String) (hc : c ≠ "") : commentOf (some c) = c := by
  have hd : c.data ≠ [] := by
    intro h
    apply hc
    cases c
    simp_all
  simp [commentOf, hd]

theorem getLineTotal_replicate (MAXHDRLINE : Nat) :
    shHdrGetLineTotal.loop (List.replicate (MAXHDRLINE + 1) none) MAXHDRLINE 0 = 0 := by
  cases MAXHDRLINE with
  | zero => simp [shHdrGetLineTotal.loop]
  | succ n => simp [shHdrGetLineTotal.loop, slot_replicate_none]

theorem getLineno_replicate (MAXHDRLINE : Nat) (k : String) (len : Nat) :
    shHdrGetLineno.loop (List.replicate (MAXHDRLINE + 1) none) k len MAXHDRLINE 0
      = (SH_GENERIC_ERROR, none) := by
  cases MAXHDRLINE with
  | zero => simp [shHdrGetLineno.loop]
  | succ n => simp [shHdrGetLineno.loop, slot_replicate_none]

theorem insertLine_null {Dbl : Type} (L : Libfits Dbl) (MAXHDRLINE : Nat) (a_hdr : HDR)
    (hnull : a_hdr.hdrVec = none) (a_lineNo : Int) (a_line : String) :
    shHdrInsertLine L MAXHDRLINE a_hdr a_lineNo a_line
      = insertIntoFresh L MAXHDRLINE a_hdr.modCnt a_lineNo a_line := by
  rw [insertLine_eq]
  simp [insertIntoFresh, spliceVec, spliceCnt, hnull]

theorem copy_loop_length (inVec outVec : List HDR_VEC) : ∀ m,
    ((List.range m).foldl (shHdrCopy.body inVec) outVec).length = outVec.length := by
  intro m
  induction m with
  | zero => simp
  | succ m ih =>
    rw [List.range_succ, List.foldl_append]
    simp only [List.foldl_cons, List.foldl_nil]
    rw [copy_body_length, ih]

theorem copy_loop_slot (inVec outVec : List HDR_VEC) : ∀ m i,
    slot ((List.range m).foldl (shHdrCopy.body inVec) outVec) i
      = if i < m ∧ i < outVec.length ∧ slot inVec i ≠ none then slot inVec i
        else slot outVec i := by
  intro m
  induction m with
  | zero => intro i; simp
  | succ m ih =>
    intro i
    have hlen := copy_loop_length inVec outVec m
    rw [List.range_succ, List.foldl_append]
    simp only [List.foldl_cons, List.foldl_nil]
    generalize (List.range m).foldl (shHdrCopy.body inVec) outVec = acc at hlen ih
    cases hs : slot inVec m with
    | none =>
      have hb : shHdrCopy.body inVec acc m = acc := by simp [shHdrCopy.body, hs]
      rw [hb, ih i]
      by_cases him : i = m
      · subst him; simp [hs]
      · have : (i < m + 1) ↔ (i < m) := by omega
        simp [this]
    | some line =>
      have hb : shHdrCopy.body inVec acc m = acc.set m (some line) := by
        simp [shHdrCopy.body, hs]
      rw [hb, slot_set, hlen]
      by_cases him : i = m
      · subst him
        by_cases hl : i < outVec.length
        · simp [hl, hs]
        · rw [ih i]
          simp [hl]
      · rw [ih i]
        have : (i < m + 1) ↔ (i < m) := by omega
        simp [him, this]

theorem contiguous_replicate (MAXHDRLINE n : Nat) :
    Contiguous MAXHDRLINE (List.replicate n none) :=
  fun _ j _ _ _ => slot_replicate_none n j

theorem copy_loop_contiguous (MAXHDRLINE : Nat) (inVec outVec : List HDR_VEC)
    (hin : Contiguous MAXHDRLINE inVec) (hout : Contiguous MAXHDRLINE outVec) :
    Contiguous MAXHDRLINE
      ((List.range MAXHDRLINE).foldl (shHdrCopy.body inVec) outVec) := by
  intro i j hij hj
  rw [copy_loop_slot, copy_loop_slot]
  intro hi
  have hiM : i < MAXHDRLINE := by omega
  by_cases hci : i < outVec.length ∧ slot inVec i ≠ none
  · simp [hiM, hci] at hi
  · have hoi : slot outVec i = none := by
      have : ¬ (i < MAXHDRLINE ∧ i < outVec.length ∧ slot inVec i ≠ none) :=
        fun h => hci h.2
      simpa [this] using hi
    have hoj : slot outVec j = none := hout i j hij hj hoi
    by_cases hcj : j < MAXHDRLINE ∧ j < outVec.length ∧ slot inVec j ≠ none
    · exfalso
      apply hci
      refine ⟨by omega, fun hsi => hcj.2.2 (hin i j hij hj hsi)⟩
    · simp [hcj, hoj]

theorem free_contiguous {Dbl : Type} (L : Libfits Dbl) (MAXHDRLINE : Nat) (a_hdr : HDR)
    (hc : ContiguousHdr MAXHDRLINE a_hdr)
    (hdel : PreservesOn MAXHDRLINE L.f_hdel (spliceVec MAXHDRLINE a_hdr)) :
    ContiguousHdr MAXHDRLINE (p_shHdrFree L a_hdr) := by
  intro w hw
  cases hv : a_hdr.hdrVec with
  | none => simp [p_shHdrFree, hv] at hw
  | some v =>
    have hcv := hc v hv
    by_cases h0 : slot v 0 = none
    · simp [p_shHdrFree, hv, h0] at hw
      subst hw
      exact hcv
    · simp [p_shHdrFree, hv, h0, p_shHdrCntrIncrement] at hw
      subst hw
      have h := hdel
      simp only [spliceVec, hv] at h
      exact h hcv

theorem spliceVec_contiguous (MAXHDRLINE : Nat) (a_hdr : HDR)
    (hc : ContiguousHdr MAXHDRLINE a_hdr) :
    Contiguous MAXHDRLINE (spliceVec MAXHDRLINE a_hdr) := by
  cases hv : a_hdr.hdrVec with
  | none => simp only [spliceVec, hv]; exact contiguous_replicate _ _
  | some v => simp only [spliceVec, hv]; exact hc v hv

theorem insertLine_contiguous {Dbl : Type} (L : Libfits Dbl) (MAXHDRLINE : Nat)
    (a_hdr : HDR) (hc : ContiguousHdr MAXHDRLINE a_hdr) (m : Int) (s : String)
    (hins : PreservesOn MAXHDRLINE (fun w => (L.f_hlins w MAXHDRLINE m s).2)
      (spliceVec MAXHDRLINE a_hdr)) :
    ContiguousHdr MAXHDRLINE (shHdrInsertLine L MAXHDRLINE a_hdr m s).2 := by
  have hres := hins (spliceVec_contiguous MAXHDRLINE a_hdr hc)
  intro w hw
  rw [insertLine_eq] at hw
  cases hacc : (L.f_hlins (spliceVec MAXHDRLINE a_hdr) MAXHDRLINE m s).1 <;>
    simp [hacc] at hw <;> subst hw <;> exact hres

theorem contiguous_of_bounded (MAXHDRLINE : Nat) (v : List HDR_VEC)
    (h : ∀ j, j < MAXHDRLINE → ∀ i, i < j → slot v i = none → slot v j = none) :
    Contiguous MAXHDRLINE v :=
  fun i j hij hj hi => h j hj i hij hi

theorem demo_leading_one : leading [some "A", none, none, none] = 1 := by decide

theorem demo_hdel_preserves :
    PreservesOn 3 demoFits.f_hdel [some "A", none, none, none] := by
  intro _
  apply contiguous_of_bounded
  decide

theorem demo_hlins_preserves (m : Int) (s : String) :
    PreservesOn 3 (fun w => (demoFits.f_hlins w 3 m s).2) [some "A", none, none, none] := by
  intro hc
  show Contiguous 3 (demoFits.f_hlins [some "A", none, none, none] 3 m s).2
  simp only [demoFits, demo_leading_one]
  by_cases hm : m < 0
  · simp [hm]; exact hc
  · simp [hm]
    intro i j hij hj
    interval_cases j <;> interval_cases i <;> simp [slot]

theorem demo_hlrep_preserves (m : Int) (s : String) :
    PreservesOn 3 (fun w => (demoFits.f_hlrep w m s).2) [some "A", none, none, none] := by
  intro hc
  show Contiguous 3 (demoFits.f_hlrep [some "A", none, none, none] m s).2
  simp only [demoFits, demo_leading_one]
  split_ifs with hm
  · have h0 : m.toNat = 0 := by omega
    rw [h0]
    intro i j hij hj
    interval_cases j <;> interval_cases i <;> simp [slot]
  · exact hc

theorem demo_hldel_preserves (m : Int) :
    PreservesOn 3 (fun w => (demoFits.f_hldel w m).2) [some "A", none, none, none] := by
  intro hc
  show Contiguous 3 (demoFits.f_hldel [some "A", none, none, none] m).2
  simp only [demoFits, demo_leading_one]
  split_ifs with hm
  · have h0 : m.toNat = 0 := by omega
    rw [h0]
    intro i j hij hj
    interval_cases j <;> interval_cases i <;> simp [slot]
  · exact hc

theorem demo_kdel_preserves (k : String) :
    PreservesOn 3 (fun w => (demoFits.f_kdel w k).2) [some "A", none, none, none] := by
  intro hc
  show Contiguous 3 (demoFits.f_kdel [some "A", none, none, none] k).2
  simp only [demoFits, demo_leading_one]
  by_cases hp : k.data <+: "A".data
  · simp [List.findIdx?, hp]
    exact contiguous_replicate 3 4
  · simp [List.findIdx?, hp]
    exact hc

theorem contiguousHdr_mk (MAXHDRLINE cnt : Nat) (v : List HDR_VEC)
    (h : Contiguous MAXHDRLINE v) : ContiguousHdr MAXHDRLINE (HDR.mk cnt (some v)) := by
  intro w hw
  simp at hw
  subst hw
  exact h

theorem slot_cons_zero (x : HDR_VEC) (xs : List HDR_VEC) : slot (x :: xs) 0 = x := by
  simp [slot]

theorem slot_cons_succ (x : HDR_VEC) (xs : List HDR_VEC) (j : Nat) :
    slot (x :: xs) (j + 1) = slot xs j := by
  simp [slot]

theorem slot_nil (j : Nat) : slot [] j = none := by
  simp [slot]

theorem leading_nil : leading [] = 0 := rfl

theorem leading_cons_none (xs : List HDR_VEC) : leading (none :: xs) = 0 := by
  simp [leading]

theorem leading_cons_some (line : String) (xs : List HDR_VEC) :
    leading (some line :: xs) = leading xs + 1 := by
  simp [leading]

theorem leading_eq (v : List HDR_VEC) : ∀ c, (∀ j, j < c → slot v j ≠ none) →
    slot v c = none → leading v = c := by
  induction v with
  | nil =>
    intro c hpre _
    cases c with
    | zero => rfl
    | succ c => exact absurd (slot_nil 0) (hpre 0 (by omega))
  | cons x xs ih =>
    intro c hpre hc
    cases x with
    | none =>
      cases c with
      | zero => exact leading_cons_none xs
      | succ c => exact absurd (slot_cons_zero none xs) (hpre 0 (by omega))
    | some line =>
      cases c with
      | zero => rw [slot_cons_zero] at hc; cases hc
      | succ c =>
        rw [leading_cons_some, ih c]
        · intro j hj
          have := hpre (j + 1) (by omega)
          rwa [slot_cons_succ] at this
        · rwa [slot_cons_succ] at hc

theorem leading_ge (v : List HDR_VEC) : ∀ c, (∀ j, j < c → slot v j ≠ none) →
    c ≤ leading v := by
  induction v with
  | nil =>
    intro c hpre
    cases c with
    | zero => exact Nat.zero_le _
    | succ c => exact absurd (slot_nil 0) (hpre 0 (by omega))
  | cons x xs ih =>
    intro c hpre
    cases c with
    | zero => exact Nat.zero_le _
    | succ c =>
      cases x with
      | none => exact absurd (slot_cons_zero none xs) (hpre 0 (by omega))
      | some line =>
        rw [leading_cons_some]
        have := ih c (fun j hj => by
          have := hpre (j + 1) (by omega)
          rwa [slot_cons_succ] at this)
        omega

theorem getLineTotal_of_firstAbsent (MAXHDRLINE : Nat) (a_hdr : HDR) (v : List HDR_VEC)
    (hv : a_hdr.hdrVec = some v) (c : Nat) (hc : IsFirstAbsent MAXHDRLINE v c) :
    shHdrGetLineTotal MAXHDRLINE a_hdr = (SH_SUCCESS, c) := by
  have hdef : shHdrGetLineTotal MAXHDRLINE a_hdr
      = (SH_SUCCESS, shHdrGetLineTotal.loop v MAXHDRLINE 0) := by
    simp [shHdrGetLineTotal, hv]
  obtain ⟨_, h2, h3, h4⟩ := getLineTotal_loop_spec v MAXHDRLINE 0
  have hfa : IsFirstAbsent MAXHDRLINE v (shHdrGetLineTotal.loop v MAXHDRLINE 0) :=
    ⟨by omega, fun j hj => h3 j (Nat.zero_le _) hj, fun h => h4 (by omega)⟩
  rw [hdef, isFirstAbsent_unique MAXHDRLINE v _ c hfa hc]

theorem typedInsert_call_eq {Dbl : Type} (L : Libfits Dbl) (MAXHDRLINE : Nat) (a_hdr : HDR)
    (cmd : TypedInsert Dbl) :
    cmd.call L MAXHDRLINE a_hdr
      = shHdrInsertLine L MAXHDRLINE a_hdr ((MAXHDRLINE : Int) + 1) (cmd.line L) := by
  cases cmd with
  | ascii k x c => exact insertAscii_eq L MAXHDRLINE a_hdr k x c
  | dbl k x c => exact insertDbl_eq L MAXHDRLINE a_hdr k x c
  | int k x c => exact insertInt_eq L MAXHDRLINE a_hdr k x c
  | logical k x c => exact insertLogical_eq L MAXHDRLINE a_hdr k x c

theorem holdsLines_replicate (n : Nat) : HoldsLines (List.replicate n none) 0 :=
  ⟨fun j hj => absurd hj (Nat.not_lt_zero j), fun j _ => slot_replicate_none n j⟩

theorem holdsLines_set (v : List HDR_VEC) (c : Nat) (line : String) (hlen : c < v.length)
    (h : HoldsLines v c) : HoldsLines (v.set c (some line)) (c + 1) := by
  obtain ⟨h1, h2⟩ := h
  constructor
  · intro j hj
    rw [slot_set]
    by_cases hjc : j = c
    · simp [hjc, hlen]
    · have : ¬ (j = c ∧ c < v.length) := fun hh => hjc hh.1
      simp only [this, if_false]
      exact h1 j (by omega)
  · intro j hj
    rw [slot_set]
    have : ¬ (j = c ∧ c < v.length) := fun hh => by omega
    simp only [this, if_false]
    exact h2 j (by omega)

theorem getLineTotal_of_holdsLines (MAXHDRLINE : Nat) (a_hdr : HDR) (c : Nat)
    (hc : c ≤ MAXHDRLINE) (h : HoldsLines (spliceVec MAXHDRLINE a_hdr) c) :
    shHdrGetLineTotal MAXHDRLINE a_hdr = (SH_SUCCESS, c) := by
  cases hv : a_hdr.hdrVec with
  | none =>
    simp only [spliceVec, hv] at h
    have hc0 : c = 0 := by
      by_contra hne
      exact h.1 0 (by omega) (slot_replicate_none _ 0)
    subst hc0
    simp [shHdrGetLineTotal, hv]
  | some v =>
    simp only [spliceVec, hv] at h
    exact getLineTotal_of_firstAbsent MAXHDRLINE a_hdr v hv c
      ⟨hc, h.1, fun _ => h.2 c (le_refl _)⟩

theorem append_step {Dbl : Type} (L : Libfits Dbl) (MAXHDRLINE : Nat)
    (happ : ∀ v line,
      L.f_hlins v MAXHDRLINE ((MAXHDRLINE : Int) + 1) line = specAppend v MAXHDRLINE line)
    (a_hdr : HDR) (c : Nat)
    (h : HoldsLines (spliceVec MAXHDRLINE a_hdr) c) (hc : c < MAXHDRLINE)
    (cmd : TypedInsert Dbl) :
    cmd.call L MAXHDRLINE a_hdr
      = (SH_SUCCESS, HDR.mk (spliceCnt a_hdr + 1)
          (some ((spliceVec MAXHDRLINE a_hdr).set c (some (cmd.line L))))) := by
  have hl : leading (spliceVec MAXHDRLINE a_hdr) = c := leading_eq _ c h.1 (h.2 c (le_refl _))
  have hnot : ¬ ((MAXHDRLINE : Int) ≤ (c : Int)) := by omega
  rw [typedInsert_call_eq, insertLine_eq, happ]
  simp [specAppend, hl, hnot]

theorem full_step {Dbl : Type} (L : Libfits Dbl) (MAXHDRLINE : Nat)
    (happ : ∀ v line,
      L.f_hlins v MAXHDRLINE ((MAXHDRLINE : Int) + 1) line = specAppend v MAXHDRLINE line)
    (a_hdr : HDR) (hfull : ∀ j, j < MAXHDRLINE → slot (spliceVec MAXHDRLINE a_hdr) j ≠ none)
    (cmd : TypedInsert Dbl) :
    (cmd.call L MAXHDRLINE a_hdr).1 = SH_HEADER_INSERTION_ERROR ∧
    shHdrGetLineTotal MAXHDRLINE (cmd.call L MAXHDRLINE a_hdr).2 = (SH_SUCCESS, MAXHDRLINE) := by
  have hl : MAXHDRLINE ≤ leading (spliceVec MAXHDRLINE a_hdr) := leading_ge _ _ hfull
  have hle : (MAXHDRLINE : Int) ≤ (leading (spliceVec MAXHDRLINE a_hdr) : Int) := by
    exact_mod_cast hl
  have hcall : cmd.call L MAXHDRLINE a_hdr
      = (SH_HEADER_INSERTION_ERROR, HDR.mk (spliceCnt a_hdr)
          (some (spliceVec MAXHDRLINE a_hdr))) := by
    rw [typedInsert_call_eq, insertLine_eq, happ]
    simp [specAppend, hle]
  rw [hcall]
  refine ⟨rfl, ?_⟩
  exact getLineTotal_of_firstAbsent MAXHDRLINE _ (spliceVec MAXHDRLINE a_hdr) rfl MAXHDRLINE
    ⟨le_refl _, hfull, fun hlt => absurd hlt (Nat.lt_irrefl _)⟩

theorem callInserts_spec {Dbl : Type} (L : Libfits Dbl) (MAXHDRLINE : Nat)
    (happ : ∀ v line,
      L.f_hlins v MAXHDRLINE ((MAXHDRLINE : Int) + 1) line = specAppend v MAXHDRLINE line) :
    ∀ (cmds : List (TypedInsert Dbl)) (a_hdr : HDR) (c : Nat),
      (spliceVec MAXHDRLINE a_hdr).length = MAXHDRLINE + 1 →
      HoldsLines (spliceVec MAXHDRLINE a_hdr) c →
      c + cmds.length ≤ MAXHDRLINE →
      (∀ rc ∈ (callInserts L MAXHDRLINE a_hdr cmds).1, rc = SH_SUCCESS) ∧
      (callInserts L MAXHDRLINE a_hdr cmds).1.length = cmds.length ∧
      (spliceVec MAXHDRLINE (callInserts L MAXHDRLINE a_hdr cmds).2).length
        = MAXHDRLINE + 1 ∧
      HoldsLines (spliceVec MAXHDRLINE (callInserts L MAXHDRLINE a_hdr cmds).2)
        (c + cmds.length) := by
  intro cmds
  induction cmds with
  | nil =>
    intro a_hdr c hlen h _
    simp only [callInserts, List.length_nil, Nat.add_zero]
    exact ⟨fun rc hrc => by simp at hrc, trivial, hlen, h⟩
  | cons cmd cs ih =>
    intro a_hdr c hlen h hN
    simp only [List.length_cons] at hN
    have hstep := append_step L MAXHDRLINE happ a_hdr c h (by omega) cmd
    have hsv : spliceVec MAXHDRLINE (cmd.call L MAXHDRLINE a_hdr).2
        = (spliceVec MAXHDRLINE a_hdr).set c (some (cmd.line L)) := by
      rw [hstep]; rfl
    have hlen2 : (spliceVec MAXHDRLINE (cmd.call L MAXHDRLINE a_hdr).2).length
        = MAXHDRLINE + 1 := by
      rw [hsv, List.length_set, hlen]
    have h2 : HoldsLines (spliceVec MAXHDRLINE (cmd.call L MAXHDRLINE a_hdr).2) (c + 1) := by
      rw [hsv]
      exact holdsLines_set _ c _ (by omega) h
    obtain ⟨i1, i2, i3, i4⟩ := ih (cmd.call L MAXHDRLINE a_hdr).2 (c + 1) hlen2 h2 (by omega)
    simp only [callInserts, List.length_cons]
    refine ⟨?_, by omega, i3, ?_⟩
    · intro rc hrc
      rcases List.mem_cons.1 hrc with h0 | h0
      · rw [h0, hstep]
      · exact i1 rc h0
    · have : c + (cs.length + 1) = c + 1 + cs.length := by omega
      rw [this]
      exact i4

theorem findKey_some (isKey : String → String → Bool) (k : String) :
    ∀ (v : List HDR_VEC) (i : Nat), findKey isKey k v = some i →
      (∃ line, slot v i = some line ∧ isKey k line = true) ∧
      (∀ j, j < i → ∃ l, slot v j = some l ∧ isKey k l = false) := by
  intro v
  induction v with
  | nil => intro i h; simp [findKey] at h
  | cons x xs ih =>
    intro i h
    cases x with
    | none => simp [findKey] at h
    | some line =>
      by_cases hm : isKey k line = true
      · have hi : i = 0 := by simpa [findKey, hm] using h.symm
        subst hi
        exact ⟨⟨line, slot_cons_zero _ _, hm⟩, fun j hj => absurd hj (Nat.not_lt_zero j)⟩
      · have hm2 : isKey k line = false := by simpa using hm
        simp only [findKey, hm2, Bool.false_eq_true, if_false, Option.map_eq_some'] at h
        obtain ⟨i0, h0, hi0⟩ := h
        subst hi0
        obtain ⟨a1, a2⟩ := ih i0 h0
        refine ⟨by simpa [slot_cons_succ] using a1, ?_⟩
        intro j hj
        cases j with
        | zero => exact ⟨line, slot_cons_zero _ _, hm2⟩
        | succ j =>
          rw [slot_cons_succ]
          exact a2 j (by omega)

theorem findKey_of_match (isKey : String → String → Bool) (k : String) :
    ∀ (v : List HDR_VEC) (j : Nat) (line : String), (∀ j', j' < j → slot v j' ≠ none) →
      slot v j = some line → isKey k line = true →
      ∃ i, i ≤ j ∧ findKey isKey k v = some i := by
  intro v
  induction v with
  | nil => intro j line _ hs _; simp [slot_nil] at hs
  | cons x xs ih =>
    intro j line hpre hs hm
    cases x with
    | none =>
      cases j with
      | zero => simp [slot_cons_zero] at hs
      | succ j => exact absurd (slot_cons_zero none xs) (hpre 0 (by omega))
    | some l0 =>
      by_cases hm0 : isKey k l0 = true
      · exact ⟨0, Nat.zero_le _, by simp [findKey, hm0]⟩
      · have hm2 : isKey k l0 = false := by simpa using hm0
        cases j with
        | zero =>
          rw [slot_cons_zero] at hs
          cases hs
          exact absurd hm hm0
        | succ j =>
          rw [slot_cons_succ] at hs
          obtain ⟨i, hi, hf⟩ := ih j line (fun j' hj' => by
            have := hpre (j' + 1) (by omega)
            rwa [slot_cons_succ] at this) hs hm
          exact ⟨i + 1, by omega, by simp [findKey, hm2, hf]⟩

theorem slot_append_none (v : List HDR_VEC) (j : Nat) : slot (v ++ [none]) j = slot v j := by
  induction v generalizing j with
  | nil =>
    cases j with
    | zero => simp [slot]
    | succ j => simp [slot]
  | cons x xs ih =>
    cases j with
    | zero => simp [slot]
    | succ j =>
      rw [List.cons_append, slot_cons_succ, slot_cons_succ]
      exact ih j

theorem slot_eraseIdx_append (v : List HDR_VEC) : ∀ (i j : Nat),
    slot (v.eraseIdx i ++ [none]) j = if j < i then slot v j else slot v (j + 1) := by
  induction v with
  | nil =>
    intro i j
    rw [List.eraseIdx_nil, slot_append_none]
    simp [slot_nil]
  | cons x xs ih =>
    intro i j
    cases i with
    | zero =>
      rw [List.eraseIdx_cons_zero, slot_append_none, slot_cons_succ]
      simp
    | succ i =>
      rw [List.eraseIdx_cons_succ, List.cons_append]
      cases j with
      | zero => simp [slot_cons_zero]
      | succ j =>
        rw [slot_cons_succ, slot_cons_succ, slot_cons_succ, ih i j]
        simp

theorem insertLine_insertCounter {Dbl : Type} (L : Libfits Dbl) (MAXHDRLINE : Nat)
    (a_hdr : HDR) (m : Int) (t : String) :
    InsertCounter a_hdr (shHdrInsertLine L MAXHDRLINE a_hdr m t) := by
  unfold InsertCounter
  rw [insertLine_eq]
  cases hv : a_hdr.hdrVec with
  | none =>
    cases (L.f_hlins (spliceVec MAXHDRLINE a_hdr) MAXHDRLINE m t).1 <;>
      simp [spliceCnt, hv]
  | some v =>
    cases (L.f_hlins (spliceVec MAXHDRLINE a_hdr) MAXHDRLINE m t).1 <;>
      simp [spliceCnt, hv]

theorem insertLine_leftEmpty {Dbl : Type} (L : Libfits Dbl) (MAXHDRLINE : Nat)
    (a_hdr : HDR) (m : Int) (t : String) :
    LeftEmptyOnReject L MAXHDRLINE a_hdr m t (shHdrInsertLine L MAXHDRLINE a_hdr m t) := by
  intro hnull
  rw [insertLine_null L MAXHDRLINE a_hdr hnull]
  unfold insertIntoFresh
  cases (L.f_hlins (List.replicate (MAXHDRLINE + 1) none) MAXHDRLINE m t).1
  · intro _
    refine ⟨by simp, ?_⟩
    intro h
    simp [h]
  · intro h
    simp at h

theorem findKey_set_leading (isKey : String → String → Bool) (k nl : String)
    (hnl : isKey k nl = true) : ∀ v : List HDR_VEC,
    (∀ j line, slot v j = some line → j < leading v → isKey k line = false) →
    leading v < v.length →
    findKey isKey k (v.set (leading v) (some nl)) = some (leading v) := by
  intro v
  induction v with
  | nil => intro _ h; simp at h
  | cons x xs ih =>
    intro hnew hlt
    cases x with
    | none =>
      rw [leading_cons_none]
      simp [findKey, hnl]
    | some l0 =>
      rw [leading_cons_some] at hlt ⊢
      have h0 : isKey k l0 = false :=
        hnew 0 l0 (slot_cons_zero _ _) (by rw [leading_cons_some]; omega)
      have hrest := ih (fun j line hs hj => hnew (j + 1) line
        (by rw [slot_cons_succ]; exact hs) (by rw [leading_cons_some]; omega))
        (by simpa using hlt)
      simp [findKey, h0, hrest]

/-- For every libfits, header, key, value and comment, each typed insert
returns `SH_SUCCESS` when `f_hlins` accepts the formatted line and
`SH_HEADER_INSERTION_ERROR` when it rejects it; on `SH_HEADER_INSERTION_ERROR`
the counter is the one before the call if the header had a vector, and that
counter plus 2 if it had none. -/
theorem typedInsert_insertOutcome {Dbl : Type} (L : Libfits Dbl) (MAXHDRLINE : Nat)
    (a_hdr : HDR) (a_key : String) (a : String) (d : Dbl) (n b : Int)
    (a_comment : Option String) :
    InsertOutcome a_hdr
      (L.f_hlins (spliceVec MAXHDRLINE a_hdr) MAXHDRLINE ((MAXHDRLINE : Int) + 1)
        (L.f_mkakey a_key a (commentOf a_comment))).1
      (shHdrInsertAscii L MAXHDRLINE a_hdr a_key a a_comment) ∧
    InsertOutcome a_hdr
      (L.f_hlins (spliceVec MAXHDRLINE a_hdr) MAXHDRLINE ((MAXHDRLINE : Int) + 1)
        (L.f_mkdkey a_key d (commentOf a_comment))).1
      (shHdrInsertDbl L MAXHDRLINE a_hdr a_key d a_comment) ∧
    InsertOutcome a_hdr
      (L.f_hlins (spliceVec MAXHDRLINE a_hdr) MAXHDRLINE ((MAXHDRLINE : Int) + 1)
        (L.f_mkikey a_key n (commentOf a_comment))).1
      (shHdrInsertInt L MAXHDRLINE a_hdr a_key n a_comment) ∧
    InsertOutcome a_hdr
      (L.f_hlins (spliceVec MAXHDRLINE a_hdr) MAXHDRLINE ((MAXHDRLINE : Int) + 1)
        (L.f_mklkey a_key b (commentOf a_comment))).1
      (shHdrInsertLogical L MAXHDRLINE a_hdr a_key b a_comment) := by
  rw [insertAscii_eq, insertDbl_eq, insertInt_eq, insertLogical_eq]
  exact ⟨insertLine_insertOutcome _ _ _ _ _, insertLine_insertOutcome _ _ _ _ _,
    insertLine_insertOutcome _ _ _ _ _, insertLine_insertOutcome _ _ _ _ _⟩

theorem fieldValue_lt (width n m : Nat) (hn : n + 2 < 2 ^ width) (hm : n < m)
    (hm2 : m ≤ n + 2) : fieldValue width n < fieldValue width m := by
  unfold fieldValue
  rw [Nat.mod_eq_of_lt (by omega), Nat.mod_eq_of_lt (by omega)]
  exact hm

/-! ## The properties -/

/-- C1: on a header whose vector is `NULL`, each of `shHdrGetAscii`,
`shHdrGetDbl`, `shHdrGetInt`, `shHdrGetLogical`, `shHdrGetLine`,
`shHdrGetLineno` and `shHdrGetLineCont` returns `SH_HEADER_IS_NULL` and writes
nothing, for every keyword and every index and whatever the libfits routines
are (they are not consulted); `shHdrGetLineTotal` returns `SH_SUCCESS` with a
total of 0. -/
theorem C1_null_header_queries {Dbl : Type} (L : Libfits Dbl) (MAXHDRLINE : Nat)
    (a_hdr : HDR) (hnull : a_hdr.hdrVec = none) (k : String) (idx : Int) :
    shHdrGetAscii L a_hdr k = (SH_HEADER_IS_NULL, none) ∧
    shHdrGetDbl L a_hdr k = (SH_HEADER_IS_NULL, none) ∧
    shHdrGetInt L a_hdr k = (SH_HEADER_IS_NULL, none) ∧
    shHdrGetLogical L a_hdr k = (SH_HEADER_IS_NULL, none) ∧
    shHdrGetLine L a_hdr k = (SH_HEADER_IS_NULL, none) ∧
    shHdrGetLineno MAXHDRLINE a_hdr k = (SH_HEADER_IS_NULL, none) ∧
    shHdrGetLineCont MAXHDRLINE a_hdr idx = (SH_HEADER_IS_NULL, none) ∧
    shHdrGetLineTotal MAXHDRLINE a_hdr = (SH_SUCCESS, 0) := by
  simp [shHdrGetAscii, shHdrGetDbl, shHdrGetInt, shHdrGetLogical, shHdrGetLine,
    shHdrGetLineno, shHdrGetLineCont, shHdrGetLineTotal, hnull]

/-- Witness of C1: the queries on the header with counter 7 and no vector. -/
theorem C1_null_header_queries_witness :
    (HDR.mk 7 none).hdrVec = none ∧
    shHdrGetAscii demoFits (HDR.mk 7 none) "OBJECT" = (SH_HEADER_IS_NULL, none) ∧
    shHdrGetDbl demoFits (HDR.mk 7 none) "OBJECT" = (SH_HEADER_IS_NULL, none) ∧
    shHdrGetInt demoFits (HDR.mk 7 none) "OBJECT" = (SH_HEADER_IS_NULL, none) ∧
    shHdrGetLogical demoFits (HDR.mk 7 none) "OBJECT" = (SH_HEADER_IS_NULL, none) ∧
    shHdrGetLine demoFits (HDR.mk 7 none) "OBJECT" = (SH_HEADER_IS_NULL, none) ∧
    shHdrGetLineno 3 (HDR.mk 7 none) "OBJECT" = (SH_HEADER_IS_NULL, none) ∧
    shHdrGetLineCont 3 (HDR.mk 7 none) 1 = (SH_HEADER_IS_NULL, none) ∧
    shHdrGetLineTotal 3 (HDR.mk 7 none) = (SH_SUCCESS, 0) :=
  ⟨rfl, C1_null_header_queries demoFits 3 (HDR.mk 7 none) rfl "OBJECT" 1⟩

/-- C2: on a header with vector `v`, for a keyword `k` (a C string) and `n` the
index of the first absent entry among `0 .. MAXHDRLINE - 1` (`MAXHDRLINE` if
there is none), `shHdrGetLineno` returns `SH_SUCCESS` with index `i` exactly
when `i` is the least index below `n` whose line has `k` as a character prefix,
and returns `SH_GENERIC_ERROR` exactly when no line below `n` has `k` as a
prefix; one of the two happens. The comparison made is a prefix test: the
`strncmp` call is 0 exactly when `k` is a prefix of the line, so it is 0 on a
line that goes on after `k`, and it is never 0 on a line shorter than `k`. -/
theorem C2_getLineno_first_prefix_match (MAXHDRLINE : Nat) (a_hdr : HDR)
    (v : List HDR_VEC) (hv : a_hdr.hdrVec = some v) (k : String) (hk : IsCString k)
    (n : Nat) (hn : IsFirstAbsent MAXHDRLINE v n) :
    (∀ i, shHdrGetLineno MAXHDRLINE a_hdr k = (SH_SUCCESS, some i) ↔
        (i < n ∧ HasPrefix v k i ∧ ∀ j, j < i → ¬ HasPrefix v k j)) ∧
    (shHdrGetLineno MAXHDRLINE a_hdr k = (SH_GENERIC_ERROR, none) ↔
        ∀ j, j < n → ¬ HasPrefix v k j) ∧
    ((shHdrGetLineno MAXHDRLINE a_hdr k).1 = SH_GENERIC_ERROR ↔
        ∀ j, j < n → ¬ HasPrefix v k j) ∧
    ((∃ i, shHdrGetLineno MAXHDRLINE a_hdr k = (SH_SUCCESS, some i)) ∨
        shHdrGetLineno MAXHDRLINE a_hdr k = (SH_GENERIC_ERROR, none)) ∧
    (∀ line : String, strncmp k.data line.data (strlen k) = 0 ↔ k.data <+: line.data) ∧
    (∀ line : String, line.data.length < k.data.length →
        strncmp k.data line.data (strlen k) ≠ 0) := by
  have hcases := getLineno_cases MAXHDRLINE a_hdr v hv k n hn
  have hP : ∀ j, Hit v k j ↔ HasPrefix v k j := hit_iff_hasPrefix v k hk
  refine ⟨?_, ?_, ?_, ?_, ?_, ?_⟩
  · intro i
    rcases hcases with ⟨m, h1, h2, h3, h4⟩ | ⟨h1, h2⟩
    · rw [h4]
      constructor
      · intro h
        have hmi : m = i := by simpa using h
        subst hmi
        exact ⟨h1, (hP m).1 h2, fun j hj hp => h3 j hj ((hP j).2 hp)⟩
      · rintro ⟨a1, a2, a3⟩
        have hmi : m = i := by
          rcases Nat.lt_trichotomy m i with h | h | h
          · exact absurd ((hP m).1 h2) (a3 m h)
          · exact h
          · exact absurd ((hP i).2 a2) (h3 i h)
        rw [hmi]
    · rw [h2]
      constructor
      · intro h; simp at h
      · rintro ⟨a1, a2, _⟩
        exact absurd ((hP i).2 a2) (h1 i a1)
  · rcases hcases with ⟨m, h1, h2, h3, h4⟩ | ⟨h1, h2⟩
    · rw [h4]
      constructor
      · intro h; simp at h
      · intro h; exact absurd ((hP m).1 h2) (h m h1)
    · rw [h2]
      simp only [true_iff]
      exact fun j hj hp => h1 j hj ((hP j).2 hp)
  · rcases hcases with ⟨m, h1, h2, h3, h4⟩ | ⟨h1, h2⟩
    · rw [h4]
      constructor
      · intro h; simp at h
      · intro h; exact absurd ((hP m).1 h2) (h m h1)
    · rw [h2]
      simp only [true_iff]
      exact fun j hj hp => h1 j hj ((hP j).2 hp)
  · rcases hcases with ⟨m, _, _, _, h4⟩ | ⟨_, h2⟩
    · exact Or.inl ⟨m, h4⟩
    · exact Or.inr h2
  · intro line
    exact strncmp_eq_zero_iff _ _ hk
  · intro line hlen h0
    have hpre : k.data <+: line.data := (strncmp_eq_zero_iff _ _ hk).1 h0
    have := hpre.length_le
    omega

/-- Witness of C2: the keyword `EXP` is found on line 1, which begins with
`EXPTIME`, in a header of three lines. -/
theorem C2_getLineno_first_prefix_match_witness :
    IsCString "EXP" ∧
    IsFirstAbsent 4 [some "SIMPLE  = T", some "EXPTIME = 30", some "EXP     = 1", none, none] 3 ∧
    shHdrGetLineno 4
      (HDR.mk 0 (some [some "SIMPLE  = T", some "EXPTIME = 30", some "EXP     = 1", none, none]))
      "EXP" = (SH_SUCCESS, some 1) :=
  ⟨by decide, by unfold IsFirstAbsent; decide,
    ((C2_getLineno_first_prefix_match 4
      (HDR.mk 0 (some [some "SIMPLE  = T", some "EXPTIME = 30", some "EXP     = 1", none, none]))
      [some "SIMPLE  = T", some "EXPTIME = 30", some "EXP     = 1", none, none] rfl
      "EXP" (by decide) 3 (by unfold IsFirstAbsent; decide)).1 1).2
      ⟨by decide, ⟨"EXPTIME = 30", by decide, by decide⟩, by
        intro j hj
        have hj0 : j = 0 := by omega
        subst hj0
        rintro ⟨line, h1, h2⟩
        have hl : line = "SIMPLE  = T" := by
          have : slot [some "SIMPLE  = T", some "EXPTIME = 30", some "EXP     = 1", none, none] 0
              = some "SIMPLE  = T" := by decide
          rw [this] at h1
          exact (Option.some.inj h1).symm
        subst hl
        revert h2
        decide⟩⟩

/-- C3: on a header with vector `v`, `shHdrGetLineTotal` returns `SH_SUCCESS`
and its total is the least index among `0 .. MAXHDRLINE - 1` whose entry is
absent, or `MAXHDRLINE` when all these entries are present; so every entry
below the total is present, the total is at most `MAXHDRLINE`, and no index
behind an absent entry lies below the total. -/
theorem C3_getLineTotal_first_absent (MAXHDRLINE : Nat) (a_hdr : HDR)
    (v : List HDR_VEC) (hv : a_hdr.hdrVec = some v) :
    (shHdrGetLineTotal MAXHDRLINE a_hdr).1 = SH_SUCCESS ∧
    IsFirstAbsent MAXHDRLINE v (shHdrGetLineTotal MAXHDRLINE a_hdr).2 ∧
    (∀ i, i < MAXHDRLINE → slot v i = none → (shHdrGetLineTotal MAXHDRLINE a_hdr).2 ≤ i) ∧
    ((shHdrGetLineTotal MAXHDRLINE a_hdr).2 < MAXHDRLINE →
        slot v (shHdrGetLineTotal MAXHDRLINE a_hdr).2 = none) ∧
    ((∀ i, i < MAXHDRLINE → slot v i ≠ none) →
        (shHdrGetLineTotal MAXHDRLINE a_hdr).2 = MAXHDRLINE) ∧
    (∀ j, j < (shHdrGetLineTotal MAXHDRLINE a_hdr).2 → slot v j ≠ none) ∧
    (shHdrGetLineTotal MAXHDRLINE a_hdr).2 ≤ MAXHDRLINE ∧
    (∀ i j, i < MAXHDRLINE → slot v i = none → i < j →
        ¬ j < (shHdrGetLineTotal MAXHDRLINE a_hdr).2) := by
  have hdef : shHdrGetLineTotal MAXHDRLINE a_hdr
      = (SH_SUCCESS, shHdrGetLineTotal.loop v MAXHDRLINE 0) := by
    simp [shHdrGetLineTotal, hv]
  obtain ⟨_, h2, h3, h4⟩ := getLineTotal_loop_spec v MAXHDRLINE 0
  rw [hdef]
  simp only
  have hpres : ∀ j, j < shHdrGetLineTotal.loop v MAXHDRLINE 0 → slot v j ≠ none :=
    fun j hj => h3 j (Nat.zero_le _) hj
  have hleast : ∀ i, i < MAXHDRLINE → slot v i = none →
      shHdrGetLineTotal.loop v MAXHDRLINE 0 ≤ i := by
    intro i _ hi
    by_contra hlt
    exact hpres i (by omega) hi
  refine ⟨trivial, ⟨by omega, hpres, fun h => h4 (by omega)⟩, hleast,
    fun h => h4 (by omega), ?_, hpres, by omega, ?_⟩
  · intro hall
    by_contra hne
    exact hall _ (by omega) (h4 (by omega))
  · intro i j hi hnone hij hj
    have := hleast i hi hnone
    omega

/-- Witness of C3: a header whose entry 1 is absent and whose entry 2 is
present has a total of 1. -/
theorem C3_getLineTotal_first_absent_witness :
    (HDR.mk 0 (some [some "A", none, some "B", none])).hdrVec
      = some [some "A", none, some "B", none] ∧
    shHdrGetLineTotal 3 (HDR.mk 0 (some [some "A", none, some "B", none])) = (SH_SUCCESS, 1) ∧
    IsFirstAbsent 3 [some "A", none, some "B", none]
      (shHdrGetLineTotal 3 (HDR.mk 0 (some [some "A", none, some "B", none]))).2 :=
  ⟨rfl, by decide,
    (C3_getLineTotal_first_absent 3 (HDR.mk 0 (some [some "A", none, some "B", none]))
      [some "A", none, some "B", none] rfl).2.1⟩

/-- C4: on a header with vector `v` and for every integer index,
`shHdrGetLineCont` returns `SH_GENERIC_ERROR` if and only if the index is
negative or at least `MAXHDRLINE`, whatever lines are present; for an index in
range it returns `SH_SUCCESS` with the very text of the entry when the entry is
present and with the empty string when it is absent. -/
theorem C4_getLineCont_bounds_and_text (MAXHDRLINE : Nat) (a_hdr : HDR)
    (v : List HDR_VEC) (hv : a_hdr.hdrVec = some v) (idx : Int) :
    ((shHdrGetLineCont MAXHDRLINE a_hdr idx).1 = SH_GENERIC_ERROR ↔
        (idx < 0 ∨ idx ≥ (MAXHDRLINE : Int))) ∧
    (0 ≤ idx → idx < (MAXHDRLINE : Int) → ∀ line, slot v idx.toNat = some line →
        shHdrGetLineCont MAXHDRLINE a_hdr idx = (SH_SUCCESS, some line)) ∧
    (0 ≤ idx → idx < (MAXHDRLINE : Int) → slot v idx.toNat = none →
        shHdrGetLineCont MAXHDRLINE a_hdr idx = (SH_SUCCESS, some "")) := by
  refine ⟨?_, ?_, ?_⟩
  · by_cases hr : idx < 0 ∨ idx ≥ (MAXHDRLINE : Int)
    · simp [shHdrGetLineCont, hv, hr]
    · simp only [shHdrGetLineCont, hv, hr, if_false, iff_false]
      cases slot v idx.toNat <;> simp
  · intro h0 h1 line hs
    have hr : ¬ (idx < 0 ∨ idx ≥ (MAXHDRLINE : Int)) := by omega
    simp [shHdrGetLineCont, hv, hr, hs]
  · intro h0 h1 hs
    have hr : ¬ (idx < 0 ∨ idx ≥ (MAXHDRLINE : Int)) := by omega
    simp [shHdrGetLineCont, hv, hr, hs]

/-- Witness of C4: entry 2 is read although entry 1 before it is absent. -/
theorem C4_getLineCont_bounds_and_text_witness :
    (HDR.mk 0 (some [some "A", none, some "B", none])).hdrVec
      = some [some "A", none, some "B", none] ∧
    shHdrGetLineCont 3 (HDR.mk 0 (some [some "A", none, some "B", none])) 2
      = (SH_SUCCESS, some "B") :=
  ⟨rfl,
    (C4_getLineCont_bounds_and_text 3 (HDR.mk 0 (some [some "A", none, some "B", none]))
      [some "A", none, some "B", none] rfl 2).2.1 (by decide) (by decide) "B" (by decide)⟩

/-- C5: copy fidelity. For a source with vector `sv` and a destination that
either has no vector or has a vector of `MAXHDRLINE + 1` entries that is
contiguous and that `f_hdel` clears, `shHdrCopy` returns `SH_SUCCESS`, the
destination has a vector afterwards, and for every index `i` below
`MAXHDRLINE` entry `i` of the destination equals entry `i` of the source:
present with the same text where the source entry is present, absent where it
is absent. -/
theorem C5_copy_fidelity {Dbl : Type} (L : Libfits Dbl) (MAXHDRLINE : Nat)
    (a_inHdr a_outHdr : HDR) (sv : List HDR_VEC) (hsrc : a_inHdr.hdrVec = some sv)
    (hdst : a_outHdr.hdrVec = none ∨
      ∃ dv, a_outHdr.hdrVec = some dv ∧ dv.length = MAXHDRLINE + 1 ∧
        Contiguous MAXHDRLINE dv ∧ ClearsLines L MAXHDRLINE dv) :
    (shHdrCopy L MAXHDRLINE a_inHdr a_outHdr).1 = SH_SUCCESS ∧
    ∃ ov, (shHdrCopy L MAXHDRLINE a_inHdr a_outHdr).2.hdrVec = some ov ∧
      ov.length = MAXHDRLINE + 1 ∧
      ∀ i, i < MAXHDRLINE → slot ov i = slot sv i := by
  have key : ∀ base : List HDR_VEC, base.length = MAXHDRLINE + 1 →
      (∀ i, i < MAXHDRLINE → slot base i = none) →
      ((List.range MAXHDRLINE).foldl (shHdrCopy.body sv) base).length = MAXHDRLINE + 1 ∧
      ∀ i, i < MAXHDRLINE →
        slot ((List.range MAXHDRLINE).foldl (shHdrCopy.body sv) base) i = slot sv i := by
    intro base hlen hnone
    obtain ⟨h1, h2⟩ := copy_loop_spec sv base MAXHDRLINE (by omega)
    refine ⟨by rw [h1, hlen], ?_⟩
    intro i hi
    rw [h2 i]
    by_cases hs : slot sv i = none
    · simp [hs, hnone i hi]
    · simp [hi, hs]
  rcases hdst with hnull | ⟨dv, hdv, hlen, hcont, hclrlen, hclr⟩
  · obtain ⟨k1, k2⟩ := key (List.replicate (MAXHDRLINE + 1) none) (by simp)
      (fun i _ => slot_replicate_none _ i)
    refine ⟨by simp [shHdrCopy, hsrc], _, ?_, k1, k2⟩
    simp [shHdrCopy, hsrc, hnull, p_shHdrMallocForVec, p_shHdrCntrIncrement]
  · by_cases h0 : slot dv 0 = none
    · have hall : ∀ i, i < MAXHDRLINE → slot dv i = none := by
        intro i hi
        by_cases hi0 : i = 0
        · subst hi0; exact h0
        · exact hcont 0 i (by omega) hi h0
      obtain ⟨k1, k2⟩ := key dv hlen hall
      refine ⟨by simp [shHdrCopy, hsrc], _, ?_, k1, k2⟩
      simp [shHdrCopy, hsrc, hdv, p_shHdrFree, h0, p_shHdrCntrIncrement]
    · obtain ⟨k1, k2⟩ := key (L.f_hdel dv) (by rw [hclrlen, hlen]) hclr
      refine ⟨by simp [shHdrCopy, hsrc], _, ?_, k1, k2⟩
      simp [shHdrCopy, hsrc, hdv, p_shHdrFree, h0, p_shHdrCntrIncrement]

/-- Witness of C5: a source with lines at entries 0 and 2 copied over a
destination that held two other lines. -/
theorem C5_copy_fidelity_witness :
    (HDR.mk 4 (some [some "A", none, some "B", none])).hdrVec
      = some [some "A", none, some "B", none] ∧
    ((HDR.mk 9 (some [some "X", some "Y", none, none])).hdrVec = none ∨
      ∃ dv, (HDR.mk 9 (some [some "X", some "Y", none, none])).hdrVec = some dv ∧
        dv.length = 3 + 1 ∧ Contiguous 3 dv ∧ ClearsLines demoFits 3 dv) ∧
    (shHdrCopy demoFits 3 (HDR.mk 4 (some [some "A", none, some "B", none]))
      (HDR.mk 9 (some [some "X", some "Y", none, none]))).1 = SH_SUCCESS ∧
    ∃ ov, (shHdrCopy demoFits 3 (HDR.mk 4 (some [some "A", none, some "B", none]))
        (HDR.mk 9 (some [some "X", some "Y", none, none]))).2.hdrVec = some ov ∧
      ov.length = 3 + 1 ∧
      ∀ i, i < 3 → slot ov i = slot [some "A", none, some "B", none] i :=
  have hd : (HDR.mk 9 (some [some "X", some "Y", none, none])).hdrVec = none ∨
      ∃ dv, (HDR.mk 9 (some [some "X", some "Y", none, none])).hdrVec = some dv ∧
        dv.length = 3 + 1 ∧ Contiguous 3 dv ∧ ClearsLines demoFits 3 dv :=
    Or.inr ⟨[some "X", some "Y", none, none], rfl, rfl, by
      intro i j hij hj
      interval_cases j <;> interval_cases i <;> decide, by
      unfold ClearsLines
      decide⟩
  ⟨rfl, hd, C5_copy_fidelity demoFits 3 (HDR.mk 4 (some [some "A", none, some "B", none]))
    (HDR.mk 9 (some [some "X", some "Y", none, none])) [some "A", none, some "B", none] rfl hd⟩


/-- C6, amended: for a source with a vector and every destination,
`shHdrCopy` returns `SH_SUCCESS`, and the counter of the destination grows by
exactly 1 when the destination has a vector whose entry 0 is absent, and by
exactly 2 when the destination has no vector or has a vector whose entry 0 is
present; the number of lines copied plays no part. -/
theorem C6_copy_counter {Dbl : Type} (L : Libfits Dbl) (MAXHDRLINE : Nat)
    (a_inHdr a_outHdr : HDR) (sv : List HDR_VEC) (hsrc : a_inHdr.hdrVec = some sv) :
    (shHdrCopy L MAXHDRLINE a_inHdr a_outHdr).1 = SH_SUCCESS ∧
    (a_outHdr.hdrVec = none →
      (shHdrCopy L MAXHDRLINE a_inHdr a_outHdr).2.modCnt = a_outHdr.modCnt + 2) ∧
    (∀ dv, a_outHdr.hdrVec = some dv → slot dv 0 = none →
      (shHdrCopy L MAXHDRLINE a_inHdr a_outHdr).2.modCnt = a_outHdr.modCnt + 1) ∧
    (∀ dv, a_outHdr.hdrVec = some dv → slot dv 0 ≠ none →
      (shHdrCopy L MAXHDRLINE a_inHdr a_outHdr).2.modCnt = a_outHdr.modCnt + 2) := by
  refine ⟨by simp [shHdrCopy, hsrc], ?_, ?_, ?_⟩
  · intro hnull
    simp [shHdrCopy, hsrc, hnull, p_shHdrMallocForVec, p_shHdrCntrIncrement]
  · intro dv hdv h0
    simp [shHdrCopy, hsrc, hdv, p_shHdrFree, h0, p_shHdrCntrIncrement]
  · intro dv hdv h0
    simp [shHdrCopy, hsrc, hdv, p_shHdrFree, h0, p_shHdrCntrIncrement]

/-- Witness of C6: a copy over a destination that holds two lines takes the
counter from 9 to 11. -/
theorem C6_copy_counter_witness :
    (HDR.mk 4 (some [some "A", none, some "B", none])).hdrVec
      = some [some "A", none, some "B", none] ∧
    (shHdrCopy demoFits 3 (HDR.mk 4 (some [some "A", none, some "B", none]))
      (HDR.mk 9 (some [some "X", some "Y", none, none]))).2.modCnt = 9 + 2 :=
  ⟨rfl,
    (C6_copy_counter demoFits 3 (HDR.mk 4 (some [some "A", none, some "B", none]))
      (HDR.mk 9 (some [some "X", some "Y", none, none]))
      [some "A", none, some "B", none] rfl).2.2.2
      [some "X", some "Y", none, none] rfl (by decide)⟩

/-- Counterexample to C6 as stated: a copy of a header without lines into a
header without vector, whose counter is 5, returns `SH_SUCCESS` and does not
leave the counter at 6. -/
theorem C6_copy_counter_counterexample :
    ¬ ((shHdrCopy demoFits 3 (HDR.mk 0 (some [none, none, none, none])) (HDR.mk 5 none)).1
        = SH_SUCCESS →
      (shHdrCopy demoFits 3 (HDR.mk 0 (some [none, none, none, none])) (HDR.mk 5 none)).2.modCnt
        = (HDR.mk 5 none).modCnt + 1) := by
  decide

/-- C8, amended: for every header, line number and text, `shHdrInsertLine`
returns `SH_SUCCESS` when `f_hlins` accepts the line and
`SH_HEADER_INSERTION_ERROR` otherwise. The counter is incremented for the
insertion only on success: after `SH_SUCCESS` it is one more than it was at the
call of `f_hlins`, and after `SH_HEADER_INSERTION_ERROR` it equals its value
before the call if the header had a vector, and that value plus 2 (the lazy
allocation) if it had none. -/
theorem C8_insertLine_outcome {Dbl : Type} (L : Libfits Dbl) (MAXHDRLINE : Nat)
    (a_hdr : HDR) (a_lineNo : Int) (a_line : String) :
    InsertOutcome a_hdr (L.f_hlins (spliceVec MAXHDRLINE a_hdr) MAXHDRLINE a_lineNo a_line).1
      (shHdrInsertLine L MAXHDRLINE a_hdr a_lineNo a_line) ∧
    ((shHdrInsertLine L MAXHDRLINE a_hdr a_lineNo a_line).1 = SH_SUCCESS ∨
      (shHdrInsertLine L MAXHDRLINE a_hdr a_lineNo a_line).1 = SH_HEADER_INSERTION_ERROR) ∧
    ((shHdrInsertLine L MAXHDRLINE a_hdr a_lineNo a_line).1 = SH_SUCCESS →
      (shHdrInsertLine L MAXHDRLINE a_hdr a_lineNo a_line).2.modCnt = spliceCnt a_hdr + 1) ∧
    ((shHdrInsertLine L MAXHDRLINE a_hdr a_lineNo a_line).1 = SH_HEADER_INSERTION_ERROR →
      (shHdrInsertLine L MAXHDRLINE a_hdr a_lineNo a_line).2.modCnt = spliceCnt a_hdr) := by
  refine ⟨insertLine_insertOutcome _ _ _ _ _, ?_, ?_, ?_⟩
  · rw [insertLine_eq]
    cases (L.f_hlins (spliceVec MAXHDRLINE a_hdr) MAXHDRLINE a_lineNo a_line).1 <;> simp
  · rw [insertLine_eq]
    cases (L.f_hlins (spliceVec MAXHDRLINE a_hdr) MAXHDRLINE a_lineNo a_line).1 <;> simp
  · rw [insertLine_eq]
    cases (L.f_hlins (spliceVec MAXHDRLINE a_hdr) MAXHDRLINE a_lineNo a_line).1 <;> simp

/-- Counterexample to C8 as stated: `shHdrInsertLine` with line number -1 on a
header without vector whose counter is 5 returns `SH_HEADER_INSERTION_ERROR` and
leaves the counter at 7. -/
theorem C8_insertLine_counterexample :
    ¬ ((shHdrInsertLine demoFits 3 (HDR.mk 5 none) (-1) "COMMENT x").1
        = SH_HEADER_INSERTION_ERROR →
      (shHdrInsertLine demoFits 3 (HDR.mk 5 none) (-1) "COMMENT x").2.modCnt
        = (HDR.mk 5 none).modCnt) := by
  decide

/-- C9, the code at the failing input: `shHdrDelByLine` deletes line 0 of a
header that holds one line, returns `SH_SUCCESS`, and leaves the counter at 5,
where it was. -/
theorem C9_delByLine_success_keeps_counter :
    shHdrDelByLine demoFits (HDR.mk 5 (some [some "OBJECT  = 'M31'", none, none, none])) 0
      = (SH_SUCCESS, HDR.mk 5 (some [none, none, none, none])) := by
  decide

/-- C10: the modification counter is never decremented. For every header and
every routine that hands back a header (the allocation used by `shHdrNew`,
`shHdrInit`, `p_shHdrFree`, `p_shHdrFreeForVec`, `shHdrInsertLine`, the four
typed inserts, `shHdrReplaceLine`, `shHdrDelByLine`, `shHdrDelByKeyword` and
`shHdrCopy` on its destination), with any return code, the counter afterwards
is at least the counter before; the counter of `shHdrNew` is above the content
of the memory it started from. The queries receive the header read-only and
hand back no header. -/
theorem C10_counter_never_decremented {Dbl : Type} (L : Libfits Dbl) (MAXHDRLINE : Nat)
    (a_hdr a_inHdr : HDR) (a_lineNo : Int) (a_line a_key a : String) (d : Dbl)
    (n b : Int) (a_comment : Option String) (fresh : Nat) :
    a_hdr.modCnt ≤ (p_shHdrCntrIncrement a_hdr).modCnt ∧
    a_hdr.modCnt ≤ (p_shHdrMallocForVec MAXHDRLINE a_hdr).modCnt ∧
    fresh ≤ (shHdrNew MAXHDRLINE fresh).modCnt ∧
    a_hdr.modCnt ≤ (shHdrInit L MAXHDRLINE a_hdr).2.modCnt ∧
    a_hdr.modCnt ≤ (p_shHdrFree L a_hdr).modCnt ∧
    a_hdr.modCnt ≤ (p_shHdrFreeForVec L a_hdr).modCnt ∧
    a_hdr.modCnt ≤ (shHdrInsertLine L MAXHDRLINE a_hdr a_lineNo a_line).2.modCnt ∧
    a_hdr.modCnt ≤ (shHdrInsertAscii L MAXHDRLINE a_hdr a_key a a_comment).2.modCnt ∧
    a_hdr.modCnt ≤ (shHdrInsertDbl L MAXHDRLINE a_hdr a_key d a_comment).2.modCnt ∧
    a_hdr.modCnt ≤ (shHdrInsertInt L MAXHDRLINE a_hdr a_key n a_comment).2.modCnt ∧
    a_hdr.modCnt ≤ (shHdrInsertLogical L MAXHDRLINE a_hdr a_key b a_comment).2.modCnt ∧
    a_hdr.modCnt ≤ (shHdrReplaceLine L a_hdr a_lineNo a_line).2.modCnt ∧
    a_hdr.modCnt ≤ (shHdrDelByLine L a_hdr a_lineNo).2.modCnt ∧
    a_hdr.modCnt ≤ (shHdrDelByKeyword L a_hdr a_key).2.modCnt ∧
    a_hdr.modCnt ≤ (shHdrCopy L MAXHDRLINE a_inHdr a_hdr).2.modCnt := by
  have hfree := free_modCnt L a_hdr
  have hins : ∀ (m : Int) (t : String),
      a_hdr.modCnt ≤ (shHdrInsertLine L MAXHDRLINE a_hdr m t).2.modCnt := by
    intro m t
    have := spliceCnt_ge a_hdr
    rw [insertLine_eq]
    cases (L.f_hlins (spliceVec MAXHDRLINE a_hdr) MAXHDRLINE m t).1 <;> simp <;> omega
  refine ⟨by simp [p_shHdrCntrIncrement],
    by simp [p_shHdrMallocForVec, p_shHdrCntrIncrement],
    by simp [shHdrNew, p_shHdrMallocForVec, p_shHdrCntrIncrement],
    ?_, by omega, ?_, hins _ _, ?_, ?_, ?_, ?_, ?_, ?_, ?_, ?_⟩
  · cases hv : a_hdr.hdrVec with
    | none => simp [shHdrInit, hv, p_shHdrMallocForVec, p_shHdrCntrIncrement]; omega
    | some v => simp [shHdrInit, hv, p_shHdrCntrIncrement]; omega
  · cases hv : a_hdr.hdrVec with
    | none => simp [p_shHdrFreeForVec, hv]
    | some v => simp [p_shHdrFreeForVec, hv, p_shHdrCntrIncrement]; omega
  · rw [insertAscii_eq]; exact hins _ _
  · rw [insertDbl_eq]; exact hins _ _
  · rw [insertInt_eq]; exact hins _ _
  · rw [insertLogical_eq]; exact hins _ _
  · cases hv : a_hdr.hdrVec with
    | none => simp [shHdrReplaceLine, hv]
    | some v =>
      simp only [shHdrReplaceLine, hv]
      cases (L.f_hlrep v a_lineNo a_line).1 <;> simp [p_shHdrCntrIncrement]
  · cases hv : a_hdr.hdrVec with
    | none => simp [shHdrDelByLine, hv]
    | some v =>
      simp only [shHdrDelByLine, hv]
      cases (L.f_hldel v a_lineNo).1 <;> simp [p_shHdrCntrIncrement]
  · cases hv : a_hdr.hdrVec with
    | none => simp [shHdrDelByKeyword, hv]
    | some v =>
      simp only [shHdrDelByKeyword, hv]
      cases (L.f_kdel v a_key).1 <;> simp [p_shHdrCntrIncrement]
  · cases hs : a_inHdr.hdrVec with
    | none => simp [shHdrCopy, hs]
    | some sv =>
      cases hv : a_hdr.hdrVec with
      | none =>
        simp [shHdrCopy, hs, hv, p_shHdrMallocForVec, p_shHdrCntrIncrement]
        omega
      | some v => simp [shHdrCopy, hs, hv, p_shHdrCntrIncrement]; omega

/-- C11: on a header whose vector is `NULL`, each of `shHdrReplaceLine`,
`shHdrDelByLine` and `shHdrDelByKeyword` returns `SH_HEADER_IS_NULL` and hands
back the very header it received, whatever the libfits routines are (they are
not called): the vector is still `NULL` and the counter is the same. -/
theorem C11_null_header_mutations {Dbl : Type} (L : Libfits Dbl) (a_hdr : HDR)
    (hnull : a_hdr.hdrVec = none) (a_lineNo : Int) (a_line a_keyword : String) :
    shHdrReplaceLine L a_hdr a_lineNo a_line = (SH_HEADER_IS_NULL, a_hdr) ∧
    shHdrDelByLine L a_hdr a_lineNo = (SH_HEADER_IS_NULL, a_hdr) ∧
    shHdrDelByKeyword L a_hdr a_keyword = (SH_HEADER_IS_NULL, a_hdr) ∧
    (shHdrReplaceLine L a_hdr a_lineNo a_line).2.hdrVec = none ∧
    (shHdrDelByLine L a_hdr a_lineNo).2.hdrVec = none ∧
    (shHdrDelByKeyword L a_hdr a_keyword).2.hdrVec = none ∧
    (shHdrReplaceLine L a_hdr a_lineNo a_line).2.modCnt = a_hdr.modCnt ∧
    (shHdrDelByLine L a_hdr a_lineNo).2.modCnt = a_hdr.modCnt ∧
    (shHdrDelByKeyword L a_hdr a_keyword).2.modCnt = a_hdr.modCnt := by
  simp [shHdrReplaceLine, shHdrDelByLine, shHdrDelByKeyword, hnull]

/-- Witness of C11: the three routines on the header with counter 7 and no
vector. -/
theorem C11_null_header_mutations_witness :
    (HDR.mk 7 none).hdrVec = none ∧
    shHdrReplaceLine demoFits (HDR.mk 7 none) 0 "COMMENT x" = (SH_HEADER_IS_NULL, HDR.mk 7 none) ∧
    shHdrDelByLine demoFits (HDR.mk 7 none) 0 = (SH_HEADER_IS_NULL, HDR.mk 7 none) ∧
    shHdrDelByKeyword demoFits (HDR.mk 7 none) "OBJECT" = (SH_HEADER_IS_NULL, HDR.mk 7 none) :=
  have h := C11_null_header_mutations demoFits (HDR.mk 7 none) rfl 0 "COMMENT x" "OBJECT"
  ⟨rfl, h.1, h.2.1, h.2.2.1⟩

/-- C12: on a header with vector `v`, `shHdrDelByKeyword` returns
`SH_SUCCESS` with the counter increased by exactly 1 when `f_kdel` reports that
it removed a line, and `SH_GENERIC_ERROR` with the counter unchanged when it
reports that it removed none; the vector is the one `f_kdel` leaves. -/
theorem C12_delByKeyword_outcome {Dbl : Type} (L : Libfits Dbl) (a_hdr : HDR)
    (v : List HDR_VEC) (hv : a_hdr.hdrVec = some v) (a_keyword : String) :
    ((L.f_kdel v a_keyword).1 = true →
      shHdrDelByKeyword L a_hdr a_keyword
        = (SH_SUCCESS, HDR.mk (a_hdr.modCnt + 1) (some (L.f_kdel v a_keyword).2))) ∧
    ((L.f_kdel v a_keyword).1 = false →
      shHdrDelByKeyword L a_hdr a_keyword
        = (SH_GENERIC_ERROR, HDR.mk a_hdr.modCnt (some (L.f_kdel v a_keyword).2))) := by
  constructor <;> intro h <;> simp [shHdrDelByKeyword, hv, h, p_shHdrCntrIncrement]

/-- Witness of C12: the keyword `EXPTIME` is on line 1 of a header of two
lines; the line goes and the counter moves from 5 to 6. -/
theorem C12_delByKeyword_outcome_witness :
    (HDR.mk 5 (some [some "OBJECT  = 'M31'", some "EXPTIME = 30", none, none])).hdrVec
      = some [some "OBJECT  = 'M31'", some "EXPTIME = 30", none, none] ∧
    (demoFits.f_kdel [some "OBJECT  = 'M31'", some "EXPTIME = 30", none, none] "EXPTIME").1
      = true ∧
    shHdrDelByKeyword demoFits
        (HDR.mk 5 (some [some "OBJECT  = 'M31'", some "EXPTIME = 30", none, none])) "EXPTIME"
      = (SH_SUCCESS, HDR.mk (5 + 1)
          (some (demoFits.f_kdel
            [some "OBJECT  = 'M31'", some "EXPTIME = 30", none, none] "EXPTIME").2)) :=
  ⟨rfl, by decide,
    (C12_delByKeyword_outcome demoFits
      (HDR.mk 5 (some [some "OBJECT  = 'M31'", some "EXPTIME = 30", none, none]))
      [some "OBJECT  = 'M31'", some "EXPTIME = 30", none, none] rfl "EXPTIME").1 (by decide)⟩

/-- C13: on a header with vector `v`, `shHdrReplaceLine` calls `f_hlrep` with
the line number and the text as they were given; it returns `SH_GENERIC_ERROR`
with the counter unchanged when `f_hlrep` rejects the replacement, and
`SH_SUCCESS` with the counter increased by exactly 1 when `f_hlrep` accepts
it. -/
theorem C13_replaceLine_outcome {Dbl : Type} (L : Libfits Dbl) (a_hdr : HDR)
    (v : List HDR_VEC) (hv : a_hdr.hdrVec = some v) (a_lineNo : Int) (a_line : String) :
    ((L.f_hlrep v a_lineNo a_line).1 = false →
      shHdrReplaceLine L a_hdr a_lineNo a_line
        = (SH_GENERIC_ERROR, HDR.mk a_hdr.modCnt (some (L.f_hlrep v a_lineNo a_line).2))) ∧
    ((L.f_hlrep v a_lineNo a_line).1 = true →
      shHdrReplaceLine L a_hdr a_lineNo a_line
        = (SH_SUCCESS, HDR.mk (a_hdr.modCnt + 1) (some (L.f_hlrep v a_lineNo a_line).2))) := by
  constructor <;> intro h <;> simp [shHdrReplaceLine, hv, h, p_shHdrCntrIncrement]

/-- Witness of C13: line number 2 is out of range on a header that has a
vector and no line; the replacement is rejected and the counter stays at 5. -/
theorem C13_replaceLine_outcome_witness :
    (HDR.mk 5 (some [none, none, none, none])).hdrVec = some [none, none, none, none] ∧
    (demoFits.f_hlrep [none, none, none, none] 2 "COMMENT x").1 = false ∧
    shHdrReplaceLine demoFits (HDR.mk 5 (some [none, none, none, none])) 2 "COMMENT x"
      = (SH_GENERIC_ERROR, HDR.mk 5 (some [none, none, none, none])) :=
  ⟨rfl, by decide,
    (C13_replaceLine_outcome demoFits (HDR.mk 5 (some [none, none, none, none]))
      [none, none, none, none] rfl 2 "COMMENT x").1 (by decide)⟩

/-- C14: for a source whose vector is `NULL` and every destination,
`shHdrCopy` returns `SH_HEADER_IS_NULL` and hands back the destination as it
was: same vector (`NULL` or not), same lines, same counter. -/
theorem C14_copy_null_source {Dbl : Type} (L : Libfits Dbl) (MAXHDRLINE : Nat)
    (a_inHdr a_outHdr : HDR) (hnull : a_inHdr.hdrVec = none) :
    shHdrCopy L MAXHDRLINE a_inHdr a_outHdr = (SH_HEADER_IS_NULL, a_outHdr) ∧
    (shHdrCopy L MAXHDRLINE a_inHdr a_outHdr).2.hdrVec = a_outHdr.hdrVec ∧
    (shHdrCopy L MAXHDRLINE a_inHdr a_outHdr).2.modCnt = a_outHdr.modCnt := by
  simp [shHdrCopy, hnull]

/-- Witness of C14: a destination with two lines keeps them when the source
has no vector. -/
theorem C14_copy_null_source_witness :
    (HDR.mk 4 none).hdrVec = none ∧
    shHdrCopy demoFits 3 (HDR.mk 4 none) (HDR.mk 9 (some [some "X", some "Y", none, none]))
      = (SH_HEADER_IS_NULL, HDR.mk 9 (some [some "X", some "Y", none, none])) :=
  ⟨rfl,
    (C14_copy_null_source demoFits 3 (HDR.mk 4 none)
      (HDR.mk 9 (some [some "X", some "Y", none, none])) rfl).1⟩

/-- C15: the header that `shHdrNew` returns has a vector, of `MAXHDRLINE + 1`
entries (indices `0 .. MAXHDRLINE`), all absent; so `shHdrGetLineTotal` returns
0 on it, `shHdrGetLineno` returns `SH_GENERIC_ERROR` (not `SH_HEADER_IS_NULL`)
for every keyword, and `shHdrGetLineCont` returns the empty string for every
index in `0 .. MAXHDRLINE - 1`. -/
theorem C15_new_header_empty (MAXHDRLINE fresh : Nat) (k : String) :
    (∃ v, (shHdrNew MAXHDRLINE fresh).hdrVec = some v ∧ v.length = MAXHDRLINE + 1 ∧
      ∀ i, i ≤ MAXHDRLINE → slot v i = none) ∧
    shHdrGetLineTotal MAXHDRLINE (shHdrNew MAXHDRLINE fresh) = (SH_SUCCESS, 0) ∧
    shHdrGetLineno MAXHDRLINE (shHdrNew MAXHDRLINE fresh) k = (SH_GENERIC_ERROR, none) ∧
    (∀ idx : Int, 0 ≤ idx → idx < (MAXHDRLINE : Int) →
      shHdrGetLineCont MAXHDRLINE (shHdrNew MAXHDRLINE fresh) idx = (SH_SUCCESS, some "")) := by
  have hvec : (shHdrNew MAXHDRLINE fresh).hdrVec
      = some (List.replicate (MAXHDRLINE + 1) none) := by
    simp [shHdrNew, p_shHdrMallocForVec, p_shHdrCntrIncrement]
  refine ⟨⟨_, hvec, by simp, fun i _ => slot_replicate_none _ i⟩, ?_, ?_, ?_⟩
  · simp [shHdrGetLineTotal, hvec, getLineTotal_replicate]
  · simp [shHdrGetLineno, hvec, getLineno_replicate]
  · intro idx h0 h1
    have hr : ¬ (idx < 0 ∨ idx ≥ (MAXHDRLINE : Int)) := by omega
    simp [shHdrGetLineCont, hvec, hr, slot_replicate_none]

/-- C16: lazy allocation. On a header whose vector is `NULL`, the allocation
that opens every insert succeeds and leaves a vector of `MAXHDRLINE + 1` absent
entries; `shHdrInsertLine` and the four typed inserts then call `f_hlins` on
that vector with their line, return `SH_SUCCESS` whenever `f_hlins` accepts it,
and leave the header with a vector in every case. -/
theorem C16_lazy_allocation {Dbl : Type} (L : Libfits Dbl) (MAXHDRLINE : Nat)
    (a_hdr : HDR) (hnull : a_hdr.hdrVec = none) (a_lineNo : Int)
    (a_line a_key a : String) (d : Dbl) (n b : Int) (a_comment : Option String) :
    lazyAlloc L MAXHDRLINE a_hdr
      = Except.ok (HDR.mk (a_hdr.modCnt + 2) (some (List.replicate (MAXHDRLINE + 1) none))) ∧
    shHdrInsertLine L MAXHDRLINE a_hdr a_lineNo a_line
      = insertIntoFresh L MAXHDRLINE a_hdr.modCnt a_lineNo a_line ∧
    shHdrInsertAscii L MAXHDRLINE a_hdr a_key a a_comment
      = insertIntoFresh L MAXHDRLINE a_hdr.modCnt ((MAXHDRLINE : Int) + 1)
          (L.f_mkakey a_key a (commentOf a_comment)) ∧
    shHdrInsertDbl L MAXHDRLINE a_hdr a_key d a_comment
      = insertIntoFresh L MAXHDRLINE a_hdr.modCnt ((MAXHDRLINE : Int) + 1)
          (L.f_mkdkey a_key d (commentOf a_comment)) ∧
    shHdrInsertInt L MAXHDRLINE a_hdr a_key n a_comment
      = insertIntoFresh L MAXHDRLINE a_hdr.modCnt ((MAXHDRLINE : Int) + 1)
          (L.f_mkikey a_key n (commentOf a_comment)) ∧
    shHdrInsertLogical L MAXHDRLINE a_hdr a_key b a_comment
      = insertIntoFresh L MAXHDRLINE a_hdr.modCnt ((MAXHDRLINE : Int) + 1)
          (L.f_mklkey a_key b (commentOf a_comment)) ∧
    (∀ (m : Int) (t : String),
      ((L.f_hlins (List.replicate (MAXHDRLINE + 1) none) MAXHDRLINE m t).1 = true →
        (insertIntoFresh L MAXHDRLINE a_hdr.modCnt m t).1 = SH_SUCCESS) ∧
      (insertIntoFresh L MAXHDRLINE a_hdr.modCnt m t).2.hdrVec ≠ none) := by
  refine ⟨?_, insertLine_null L MAXHDRLINE a_hdr hnull _ _, ?_, ?_, ?_, ?_, ?_⟩
  · rw [lazyAlloc_eq]
    simp [spliceCnt, spliceVec, hnull]
  · rw [insertAscii_eq]; exact insertLine_null L MAXHDRLINE a_hdr hnull _ _
  · rw [insertDbl_eq]; exact insertLine_null L MAXHDRLINE a_hdr hnull _ _
  · rw [insertInt_eq]; exact insertLine_null L MAXHDRLINE a_hdr hnull _ _
  · rw [insertLogical_eq]; exact insertLine_null L MAXHDRLINE a_hdr hnull _ _
  · intro m t
    unfold insertIntoFresh
    cases (L.f_hlins (List.replicate (MAXHDRLINE + 1) none) MAXHDRLINE m t).1 <;> simp

/-- Witness of C16: `shHdrInsertInt` on the header with counter 0 and no
vector allocates the vector and stores the line in entry 0. -/
theorem C16_lazy_allocation_witness :
    (HDR.mk 0 none).hdrVec = none ∧
    shHdrInsertInt demoFits 3 (HDR.mk 0 none) "EXPTIME" 30 none
      = (SH_SUCCESS, HDR.mk 3 (some [some "EXPTIME= I /", none, none, none])) :=
  ⟨rfl,
    (C16_lazy_allocation demoFits 3 (HDR.mk 0 none) rfl 0 "" "EXPTIME" "" 0 30 0 none).2.2.2.2.1.trans
      (by decide)⟩

/-- C17: for every keyword and value, each of `shHdrMakeLineWithAscii`,
`shHdrMakeLineWithDbl`, `shHdrMakeLineWithInt` and `shHdrMakeLineWithLogical`
gives for a `NULL` comment and for the empty comment the same line, the one the
formatting routine of libfits makes of keyword, value and the empty string, and
for a comment that is not empty the line it makes of keyword, value and that
comment. The typed inserts treat the comment in the same way: an insert with a
`NULL` comment equals the insert with the empty comment, and the line an insert
hands to `f_hlins` is the line of the matching `shHdrMakeLineWith` routine. -/
theorem C17_comment_normalised {Dbl : Type} (L : Libfits Dbl) (MAXHDRLINE : Nat)
    (a_hdr : HDR) (a_keyword a : String) (d : Dbl) (n b : Int) :
    (shHdrMakeLineWithAscii L a_keyword a none = L.f_mkakey a_keyword a "" ∧
      shHdrMakeLineWithAscii L a_keyword a (some "") = L.f_mkakey a_keyword a "" ∧
      ∀ c, c ≠ "" → shHdrMakeLineWithAscii L a_keyword a (some c) = L.f_mkakey a_keyword a c) ∧
    (shHdrMakeLineWithDbl L a_keyword d none = L.f_mkdkey a_keyword d "" ∧
      shHdrMakeLineWithDbl L a_keyword d (some "") = L.f_mkdkey a_keyword d "" ∧
      ∀ c, c ≠ "" → shHdrMakeLineWithDbl L a_keyword d (some c) = L.f_mkdkey a_keyword d c) ∧
    (shHdrMakeLineWithInt L a_keyword n none = L.f_mkikey a_keyword n "" ∧
      shHdrMakeLineWithInt L a_keyword n (some "") = L.f_mkikey a_keyword n "" ∧
      ∀ c, c ≠ "" → shHdrMakeLineWithInt L a_keyword n (some c) = L.f_mkikey a_keyword n c) ∧
    (shHdrMakeLineWithLogical L a_keyword b none = L.f_mklkey a_keyword b "" ∧
      shHdrMakeLineWithLogical L a_keyword b (some "") = L.f_mklkey a_keyword b "" ∧
      ∀ c, c ≠ "" →
        shHdrMakeLineWithLogical L a_keyword b (some c) = L.f_mklkey a_keyword b c) ∧
    (shHdrInsertAscii L MAXHDRLINE a_hdr a_keyword a none
        = shHdrInsertAscii L MAXHDRLINE a_hdr a_keyword a (some "") ∧
      shHdrInsertDbl L MAXHDRLINE a_hdr a_keyword d none
        = shHdrInsertDbl L MAXHDRLINE a_hdr a_keyword d (some "") ∧
      shHdrInsertInt L MAXHDRLINE a_hdr a_keyword n none
        = shHdrInsertInt L MAXHDRLINE a_hdr a_keyword n (some "") ∧
      shHdrInsertLogical L MAXHDRLINE a_hdr a_keyword b none
        = shHdrInsertLogical L MAXHDRLINE a_hdr a_keyword b (some "")) ∧
    (∀ cm : Option String,
      shHdrInsertAscii L MAXHDRLINE a_hdr a_keyword a cm
        = shHdrInsertLine L MAXHDRLINE a_hdr ((MAXHDRLINE : Int) + 1)
            (shHdrMakeLineWithAscii L a_keyword a cm) ∧
      shHdrInsertDbl L MAXHDRLINE a_hdr a_keyword d cm
        = shHdrInsertLine L MAXHDRLINE a_hdr ((MAXHDRLINE : Int) + 1)
            (shHdrMakeLineWithDbl L a_keyword d cm) ∧
      shHdrInsertInt L MAXHDRLINE a_hdr a_keyword n cm
        = shHdrInsertLine L MAXHDRLINE a_hdr ((MAXHDRLINE : Int) + 1)
            (shHdrMakeLineWithInt L a_keyword n cm) ∧
      shHdrInsertLogical L MAXHDRLINE a_hdr a_keyword b cm
        = shHdrInsertLine L MAXHDRLINE a_hdr ((MAXHDRLINE : Int) + 1)
            (shHdrMakeLineWithLogical L a_keyword b cm)) := by
  refine ⟨⟨?_, ?_, ?_⟩, ⟨?_, ?_, ?_⟩, ⟨?_, ?_, ?_⟩, ⟨?_, ?_, ?_⟩, ⟨?_, ?_, ?_, ?_⟩, ?_⟩
  · simp [shHdrMakeLineWithAscii, commentOf_none]
  · simp [shHdrMakeLineWithAscii, commentOf_empty]
  · intro c hc; simp [shHdrMakeLineWithAscii, commentOf_nonempty c hc]
  · simp [shHdrMakeLineWithDbl, commentOf_none]
  · simp [shHdrMakeLineWithDbl, commentOf_empty]
  · intro c hc; simp [shHdrMakeLineWithDbl, commentOf_nonempty c hc]
  · simp [shHdrMakeLineWithInt, commentOf_none]
  · simp [shHdrMakeLineWithInt, commentOf_empty]
  · intro c hc; simp [shHdrMakeLineWithInt, commentOf_nonempty c hc]
  · simp [shHdrMakeLineWithLogical, commentOf_none]
  · simp [shHdrMakeLineWithLogical, commentOf_empty]
  · intro c hc; simp [shHdrMakeLineWithLogical, commentOf_nonempty c hc]
  · rw [insertAscii_eq, insertAscii_eq, commentOf_none, commentOf_empty]
  · rw [insertDbl_eq, insertDbl_eq, commentOf_none, commentOf_empty]
  · rw [insertInt_eq, insertInt_eq, commentOf_none, commentOf_empty]
  · rw [insertLogical_eq, insertLogical_eq, commentOf_none, commentOf_empty]
  · intro cm
    exact ⟨insertAscii_eq _ _ _ _ _ _, insertDbl_eq _ _ _ _ _ _, insertInt_eq _ _ _ _ _ _,
      insertLogical_eq _ _ _ _ _ _⟩

/-- C18: the contiguity invariant (among the entries `0 .. MAXHDRLINE - 1` no
absent entry comes before a present one). It holds for the header that
`shHdrNew` returns. For a contiguous header it holds again after `shHdrInit`,
`p_shHdrFree` and `p_shHdrFreeForVec`, and, the source being contiguous too,
for the destination after `shHdrCopy`; it holds after `shHdrInsertLine`, the
four typed inserts, `shHdrReplaceLine`, `shHdrDelByLine` and
`shHdrDelByKeyword`. All this is for libfits routines that preserve contiguity
on the vector of the header: `f_hdel`, on which the freeing rests, and
`f_hlins`, `f_hlrep`, `f_hldel`, `f_kdel`. -/
theorem C18_contiguity_preserved {Dbl : Type} (L : Libfits Dbl) (MAXHDRLINE : Nat)
    (a_hdr a_inHdr : HDR) (fresh : Nat) (a_key a : String) (d : Dbl) (n b : Int)
    (a_comment : Option String)
    (hc : ContiguousHdr MAXHDRLINE a_hdr) (hsrc : ContiguousHdr MAXHDRLINE a_inHdr)
    (hdel : PreservesOn MAXHDRLINE L.f_hdel (spliceVec MAXHDRLINE a_hdr))
    (hins : ∀ m s, PreservesOn MAXHDRLINE (fun w => (L.f_hlins w MAXHDRLINE m s).2)
      (spliceVec MAXHDRLINE a_hdr))
    (hrep : ∀ m s, PreservesOn MAXHDRLINE (fun w => (L.f_hlrep w m s).2)
      (spliceVec MAXHDRLINE a_hdr))
    (hldel : ∀ m, PreservesOn MAXHDRLINE (fun w => (L.f_hldel w m).2)
      (spliceVec MAXHDRLINE a_hdr))
    (hkdel : ∀ k, PreservesOn MAXHDRLINE (fun w => (L.f_kdel w k).2)
      (spliceVec MAXHDRLINE a_hdr)) :
    ContiguousHdr MAXHDRLINE (shHdrNew MAXHDRLINE fresh) ∧
    ContiguousHdr MAXHDRLINE (shHdrInit L MAXHDRLINE a_hdr).2 ∧
    ContiguousHdr MAXHDRLINE (p_shHdrFree L a_hdr) ∧
    ContiguousHdr MAXHDRLINE (p_shHdrFreeForVec L a_hdr) ∧
    ContiguousHdr MAXHDRLINE (shHdrCopy L MAXHDRLINE a_inHdr a_hdr).2 ∧
    (∀ m s, ContiguousHdr MAXHDRLINE (shHdrInsertLine L MAXHDRLINE a_hdr m s).2) ∧
    ContiguousHdr MAXHDRLINE (shHdrInsertAscii L MAXHDRLINE a_hdr a_key a a_comment).2 ∧
    ContiguousHdr MAXHDRLINE (shHdrInsertDbl L MAXHDRLINE a_hdr a_key d a_comment).2 ∧
    ContiguousHdr MAXHDRLINE (shHdrInsertInt L MAXHDRLINE a_hdr a_key n a_comment).2 ∧
    ContiguousHdr MAXHDRLINE (shHdrInsertLogical L MAXHDRLINE a_hdr a_key b a_comment).2 ∧
    (∀ m s, ContiguousHdr MAXHDRLINE (shHdrReplaceLine L a_hdr m s).2) ∧
    (∀ m, ContiguousHdr MAXHDRLINE (shHdrDelByLine L a_hdr m).2) ∧
    (∀ k, ContiguousHdr MAXHDRLINE (shHdrDelByKeyword L a_hdr k).2) := by
  have hfree := free_contiguous L MAXHDRLINE a_hdr hc hdel
  have hinsl : ∀ m s, ContiguousHdr MAXHDRLINE (shHdrInsertLine L MAXHDRLINE a_hdr m s).2 :=
    fun m s => insertLine_contiguous L MAXHDRLINE a_hdr hc m s (hins m s)
  refine ⟨?_, ?_, hfree, ?_, ?_, hinsl, ?_, ?_, ?_, ?_, ?_, ?_, ?_⟩
  · intro w hw
    simp [shHdrNew, p_shHdrMallocForVec, p_shHdrCntrIncrement] at hw
    subst hw
    exact contiguous_replicate _ _
  · intro w hw
    cases hv : a_hdr.hdrVec with
    | none =>
      simp [shHdrInit, hv, p_shHdrMallocForVec, p_shHdrCntrIncrement] at hw
      subst hw
      exact contiguous_replicate _ _
    | some v =>
      simp [shHdrInit, hv, p_shHdrCntrIncrement] at hw
      exact hfree w hw
  · intro w hw
    cases hv : a_hdr.hdrVec with
    | none =>
      simp [p_shHdrFreeForVec, hv] at hw
    | some v =>
      simp [p_shHdrFreeForVec, hv, p_shHdrCntrIncrement] at hw
  · intro w hw
    cases hs : a_inHdr.hdrVec with
    | none =>
      simp [shHdrCopy, hs] at hw
      exact hc w hw
    | some sv =>
      have hsv := hsrc sv hs
      cases hv : a_hdr.hdrVec with
      | none =>
        simp [shHdrCopy, hs, hv, p_shHdrMallocForVec, p_shHdrCntrIncrement] at hw
        subst hw
        exact copy_loop_contiguous MAXHDRLINE sv _ hsv (contiguous_replicate _ _)
      | some v =>
        simp only [shHdrCopy, hs, p_shHdrCntrIncrement, hv] at hw
        cases hf : (p_shHdrFree L a_hdr).hdrVec with
        | none => simp [hf] at hw
        | some fv =>
          simp [hf] at hw
          subst hw
          exact copy_loop_contiguous MAXHDRLINE sv fv hsv (hfree fv hf)
  · rw [insertAscii_eq]; exact hinsl _ _
  · rw [insertDbl_eq]; exact hinsl _ _
  · rw [insertInt_eq]; exact hinsl _ _
  · rw [insertLogical_eq]; exact hinsl _ _
  · intro m s w hw
    cases hv : a_hdr.hdrVec with
    | none =>
      simp [shHdrReplaceLine, hv] at hw
    | some v =>
      have hp := hrep m s
      simp only [spliceVec, hv] at hp
      have hres := hp (hc v hv)
      simp only [shHdrReplaceLine, hv] at hw
      cases hacc : (L.f_hlrep v m s).1 <;>
        simp [hacc, p_shHdrCntrIncrement] at hw <;> subst hw <;> exact hres
  · intro m w hw
    cases hv : a_hdr.hdrVec with
    | none =>
      simp [shHdrDelByLine, hv] at hw
    | some v =>
      have hp := hldel m
      simp only [spliceVec, hv] at hp
      have hres := hp (hc v hv)
      simp only [shHdrDelByLine, hv] at hw
      cases hacc : (L.f_hldel v m).1 <;>
        simp [hacc, p_shHdrCntrIncrement] at hw <;> subst hw <;> exact hres
  · intro k w hw
    cases hv : a_hdr.hdrVec with
    | none =>
      simp [shHdrDelByKeyword, hv] at hw
    | some v =>
      have hp := hkdel k
      simp only [spliceVec, hv] at hp
      have hres := hp (hc v hv)
      simp only [shHdrDelByKeyword, hv] at hw
      cases hacc : (L.f_kdel v k).1 <;>
        simp [hacc, p_shHdrCntrIncrement] at hw <;> subst hw <;> exact hres

/-- Witness of C18: a header with one line and a source with two lines, with
the libfits `demoFits`, which preserves contiguity on the vector of the
header; the destination of the copy and the header after `shHdrInsertInt` are
contiguous. -/
theorem C18_contiguity_preserved_witness :
    ContiguousHdr 3 (HDR.mk 5 (some [some "A", none, none, none])) ∧
    ContiguousHdr 3 (HDR.mk 0 (some [some "X", some "Y", none, none])) ∧
    PreservesOn 3 demoFits.f_hdel [some "A", none, none, none] ∧
    (∀ m s, PreservesOn 3 (fun w => (demoFits.f_hlins w 3 m s).2)
      [some "A", none, none, none]) ∧
    (∀ m s, PreservesOn 3 (fun w => (demoFits.f_hlrep w m s).2)
      [some "A", none, none, none]) ∧
    (∀ m, PreservesOn 3 (fun w => (demoFits.f_hldel w m).2) [some "A", none, none, none]) ∧
    (∀ k, PreservesOn 3 (fun w => (demoFits.f_kdel w k).2) [some "A", none, none, none]) ∧
    ContiguousHdr 3
      (shHdrCopy demoFits 3 (HDR.mk 0 (some [some "X", some "Y", none, none]))
        (HDR.mk 5 (some [some "A", none, none, none]))).2 ∧
    ContiguousHdr 3
      (shHdrInsertInt demoFits 3 (HDR.mk 5 (some [some "A", none, none, none]))
        "EXPTIME" 30 none).2 :=
  have hc : ContiguousHdr 3 (HDR.mk 5 (some [some "A", none, none, none])) :=
    contiguousHdr_mk 3 5 _ (contiguous_of_bounded 3 _ (by decide))
  have hsrc : ContiguousHdr 3 (HDR.mk 0 (some [some "X", some "Y", none, none])) :=
    contiguousHdr_mk 3 0 _ (contiguous_of_bounded 3 _ (by decide))
  have h := C18_contiguity_preserved demoFits 3 (HDR.mk 5 (some [some "A", none, none, none]))
    (HDR.mk 0 (some [some "X", some "Y", none, none])) 0 "EXPTIME" "" 0 30 0 none hc hsrc
    demo_hdel_preserves demo_hlins_preserves demo_hlrep_preserves demo_hldel_preserves
    demo_kdel_preserves
  ⟨hc, hsrc, demo_hdel_preserves, demo_hlins_preserves, demo_hlrep_preserves,
    demo_hldel_preserves, demo_kdel_preserves, h.2.2.2.2.1, h.2.2.2.2.2.2.2.2.1⟩

/-- C19: insert then count, for an `f_hlins` that appends as the spec has it
(`specAppend`). From an empty header (no vector, or a vector of absent
entries), `N` typed inserts with `N` at most `MAXHDRLINE` all return
`SH_SUCCESS`, whatever their keywords, and `shHdrGetLineTotal` then returns
`N`. A further typed insert, after `MAXHDRLINE` of them or into any header
whose entries `0 .. MAXHDRLINE - 1` are all present, returns
`SH_HEADER_INSERTION_ERROR`, and `shHdrGetLineTotal` stays at `MAXHDRLINE`. -/
theorem C19_insert_then_count {Dbl : Type} (L : Libfits Dbl) (MAXHDRLINE : Nat)
    (happ : ∀ v line,
      L.f_hlins v MAXHDRLINE ((MAXHDRLINE : Int) + 1) line = specAppend v MAXHDRLINE line)
    (a_hdr : HDR)
    (hempty : a_hdr.hdrVec = none ∨
      a_hdr.hdrVec = some (List.replicate (MAXHDRLINE + 1) none))
    (cmds : List (TypedInsert Dbl)) (hN : cmds.length ≤ MAXHDRLINE) :
    (∀ rc ∈ (callInserts L MAXHDRLINE a_hdr cmds).1, rc = SH_SUCCESS) ∧
    (callInserts L MAXHDRLINE a_hdr cmds).1.length = cmds.length ∧
    shHdrGetLineTotal MAXHDRLINE (callInserts L MAXHDRLINE a_hdr cmds).2
      = (SH_SUCCESS, cmds.length) ∧
    (cmds.length = MAXHDRLINE → ∀ cmd : TypedInsert Dbl,
      (cmd.call L MAXHDRLINE (callInserts L MAXHDRLINE a_hdr cmds).2).1
        = SH_HEADER_INSERTION_ERROR ∧
      shHdrGetLineTotal MAXHDRLINE
        (cmd.call L MAXHDRLINE (callInserts L MAXHDRLINE a_hdr cmds).2).2
        = (SH_SUCCESS, MAXHDRLINE)) ∧
    (∀ (h : HDR) (v : List HDR_VEC) (cmd : TypedInsert Dbl), h.hdrVec = some v →
      (∀ j, j < MAXHDRLINE → slot v j ≠ none) →
      (cmd.call L MAXHDRLINE h).1 = SH_HEADER_INSERTION_ERROR ∧
      shHdrGetLineTotal MAXHDRLINE (cmd.call L MAXHDRLINE h).2
        = (SH_SUCCESS, MAXHDRLINE)) := by
  have hsv : spliceVec MAXHDRLINE a_hdr = List.replicate (MAXHDRLINE + 1) none := by
    rcases hempty with h | h <;> simp [spliceVec, h]
  have hlen : (spliceVec MAXHDRLINE a_hdr).length = MAXHDRLINE + 1 := by
    rw [hsv]; simp
  have h0 : HoldsLines (spliceVec MAXHDRLINE a_hdr) 0 := by
    rw [hsv]; exact holdsLines_replicate _
  obtain ⟨i1, i2, _, i4⟩ :=
    callInserts_spec L MAXHDRLINE happ cmds a_hdr 0 hlen h0 (by omega)
  rw [Nat.zero_add] at i4
  refine ⟨i1, i2, getLineTotal_of_holdsLines MAXHDRLINE _ _ hN i4, ?_, ?_⟩
  · intro hfull cmd
    exact full_step L MAXHDRLINE happ _ (fun j hj => i4.1 j (by omega)) cmd
  · intro h v cmd hv hfull
    exact full_step L MAXHDRLINE happ h (by simpa [spliceVec, hv] using hfull) cmd

/-- Witness of C19: with room for two lines, two typed inserts into the header
without vector succeed and the total is 2; a third one is refused. -/
theorem C19_insert_then_count_witness :
    (∀ v line, specFits.f_hlins v (2 : Nat) (((2 : Nat) : Int) + 1) line
      = specAppend v (2 : Nat) line) ∧
    ((HDR.mk 0 none).hdrVec = none ∨
      (HDR.mk 0 none).hdrVec = some (List.replicate (2 + 1) none)) ∧
    ([TypedInsert.int "EXPTIME" 30 none,
      TypedInsert.ascii "OBJECT" "M31" (some "target name")] :
        List (TypedInsert Int)).length ≤ 2 ∧
    shHdrGetLineTotal 2
      (callInserts specFits 2 (HDR.mk 0 none)
        [TypedInsert.int "EXPTIME" 30 none,
          TypedInsert.ascii "OBJECT" "M31" (some "target name")]).2 = (SH_SUCCESS, 2) ∧
    ((TypedInsert.logical "SIMPLE" 1 none).call specFits 2
      (callInserts specFits 2 (HDR.mk 0 none)
        [TypedInsert.int "EXPTIME" 30 none,
          TypedInsert.ascii "OBJECT" "M31" (some "target name")]).2).1
      = SH_HEADER_INSERTION_ERROR :=
  have h := C19_insert_then_count specFits 2 (fun _ _ => rfl) (HDR.mk 0 none) (Or.inl rfl)
    [TypedInsert.int "EXPTIME" 30 none, TypedInsert.ascii "OBJECT" "M31" (some "target name")]
    (by decide)
  ⟨fun _ _ => rfl, Or.inl rfl, by decide, h.2.2.1,
    (h.2.2.2.1 rfl (TypedInsert.logical "SIMPLE" 1 none)).1⟩

/-- C20: delete by keyword, for an `f_kdel` that works as the spec has it
(`specDeleteByKeyword`). On a header with a vector of `MAXHDRLINE + 1` entries
whose last entry, the terminator, is `NULL`, and in which some line before the
first absent entry matches the keyword, `shHdrDelByKeyword` returns
`SH_SUCCESS`; with `i` the index of the first matching line, the entries before
`i` are unchanged, every entry from `i` on holds what the next entry held
before (the later lines move up by one position, in the same order), and
`shHdrGetLineTotal` afterwards is exactly one less than before. The header need
not even be contiguous. -/
theorem C20_delByKeyword_removes_first_match {Dbl : Type} (L : Libfits Dbl)
    (MAXHDRLINE : Nat) (isKey : String → String → Bool)
    (hk : ∀ v k, L.f_kdel v k = specDeleteByKeyword isKey v k)
    (a_hdr : HDR) (v : List HDR_VEC) (hv : a_hdr.hdrVec = some v)
    (hlen : v.length = MAXHDRLINE + 1) (hend : slot v MAXHDRLINE = none)
    (k : String)
    (hex : ∃ j line, j < (shHdrGetLineTotal MAXHDRLINE a_hdr).2 ∧
      slot v j = some line ∧ isKey k line = true) :
    ∃ i line w,
      shHdrDelByKeyword L a_hdr k = (SH_SUCCESS, HDR.mk (a_hdr.modCnt + 1) (some w)) ∧
      i < (shHdrGetLineTotal MAXHDRLINE a_hdr).2 ∧
      slot v i = some line ∧ isKey k line = true ∧
      (∀ j, j < i → ∀ l, slot v j = some l → isKey k l = false) ∧
      w.length = MAXHDRLINE + 1 ∧
      (∀ j, j < i → slot w j = slot v j) ∧
      (∀ j, i ≤ j → slot w j = slot v (j + 1)) ∧
      (shHdrGetLineTotal MAXHDRLINE (shHdrDelByKeyword L a_hdr k).2).1 = SH_SUCCESS ∧
      (shHdrGetLineTotal MAXHDRLINE (shHdrDelByKeyword L a_hdr k).2).2 + 1
        = (shHdrGetLineTotal MAXHDRLINE a_hdr).2 := by
  have hdef : shHdrGetLineTotal MAXHDRLINE a_hdr
      = (SH_SUCCESS, shHdrGetLineTotal.loop v MAXHDRLINE 0) := by
    simp [shHdrGetLineTotal, hv]
  obtain ⟨_, c2, c3, c4⟩ := getLineTotal_loop_spec v MAXHDRLINE 0
  rw [hdef] at hex ⊢
  simp only at hex ⊢
  generalize shHdrGetLineTotal.loop v MAXHDRLINE 0 = c at hex c2 c3 c4 ⊢
  have hcM : c ≤ MAXHDRLINE := by omega
  have hpres : ∀ j, j < c → slot v j ≠ none := fun j hj => c3 j (Nat.zero_le _) hj
  have hcnone : slot v c = none := by
    by_cases hlt : c < MAXHDRLINE
    · exact c4 (by omega)
    · have : c = MAXHDRLINE := by omega
      rw [this]; exact hend
  obtain ⟨j, line0, hj, hsj, hmj⟩ := hex
  obtain ⟨i, hij, hfind⟩ :=
    findKey_of_match isKey k v j line0 (fun j' hj' => hpres j' (by omega)) hsj hmj
  obtain ⟨⟨line, hsi, hmi⟩, hbefore⟩ := findKey_some isKey k v i hfind
  have hic : i < c := by omega
  have hkdel : L.f_kdel v k = (true, v.eraseIdx i ++ [none]) := by
    rw [hk]; simp [specDeleteByKeyword, hfind]
  have hres : shHdrDelByKeyword L a_hdr k
      = (SH_SUCCESS, HDR.mk (a_hdr.modCnt + 1) (some (v.eraseIdx i ++ [none]))) := by
    simp [shHdrDelByKeyword, hv, hkdel, p_shHdrCntrIncrement]
  have hslot := slot_eraseIdx_append v i
  have hfa : IsFirstAbsent MAXHDRLINE (v.eraseIdx i ++ [none]) (c - 1) := by
    refine ⟨by omega, ?_, ?_⟩
    · intro j' hj'
      rw [hslot]
      by_cases hlt : j' < i
      · simp only [hlt, if_true]; exact hpres j' (by omega)
      · simp only [hlt, if_false]; exact hpres (j' + 1) (by omega)
    · intro _
      rw [hslot]
      have hlt : ¬ (c - 1 < i) := by omega
      simp only [hlt, if_false]
      have : c - 1 + 1 = c := by omega
      rw [this]; exact hcnone
  have htot := getLineTotal_of_firstAbsent MAXHDRLINE
    (HDR.mk (a_hdr.modCnt + 1) (some (v.eraseIdx i ++ [none]))) _ rfl (c - 1) hfa
  refine ⟨i, line, v.eraseIdx i ++ [none], hres, hic, hsi, hmi, ?_, ?_, ?_, ?_, ?_, ?_⟩
  · intro j' hj' l hl
    obtain ⟨l', h1, h2⟩ := hbefore j' hj'
    rw [h1] at hl
    cases hl
    exact h2
  · rw [List.length_append, List.length_eraseIdx, hlen]
    have : i < MAXHDRLINE + 1 := by omega
    simp [this]
  · intro j' hj'
    rw [hslot]; simp [hj']
  · intro j' hj'
    rw [hslot]
    have : ¬ j' < i := by omega
    simp [this]
  · rw [hres, htot]
  · rw [hres, htot]
    simp only
    omega

/-- Witness of C20: the keyword `EXP` first matches line 1 of a header of
three lines; that line goes, the line behind it moves up, and the total falls
from 3 to 2. -/
theorem C20_delByKeyword_removes_first_match_witness :
    (∀ v k, specFits.f_kdel v k
      = specDeleteByKeyword (fun k line => decide (k.data <+: line.data)) v k) ∧
    shHdrGetLineTotal 3
      (HDR.mk 5 (some [some "OBJECT  = 'M31'", some "EXPTIME = 30", some "EXPOSURE= 1",
        none])) = (SH_SUCCESS, 3) ∧
    shHdrDelByKeyword specFits
      (HDR.mk 5 (some [some "OBJECT  = 'M31'", some "EXPTIME = 30", some "EXPOSURE= 1",
        none])) "EXP"
      = (SH_SUCCESS, HDR.mk 6 (some [some "OBJECT  = 'M31'", some "EXPOSURE= 1", none,
        none])) ∧
    (shHdrGetLineTotal 3
      (shHdrDelByKeyword specFits
        (HDR.mk 5 (some [some "OBJECT  = 'M31'", some "EXPTIME = 30", some "EXPOSURE= 1",
          none])) "EXP").2).2 + 1
      = (shHdrGetLineTotal 3
        (HDR.mk 5 (some [some "OBJECT  = 'M31'", some "EXPTIME = 30", some "EXPOSURE= 1",
          none]))).2 :=
  have h := C20_delByKeyword_removes_first_match specFits 3
    (fun k line => decide (k.data <+: line.data)) (fun _ _ => rfl)
    (HDR.mk 5 (some [some "OBJECT  = 'M31'", some "EXPTIME = 30", some "EXPOSURE= 1", none]))
    [some "OBJECT  = 'M31'", some "EXPTIME = 30", some "EXPOSURE= 1", none] rfl rfl
    (by decide) "EXP" ⟨2, "EXPOSURE= 1", by decide, by decide, by decide⟩
  ⟨fun _ _ => rfl, by decide, by decide,
    h.elim fun _ h1 => h1.elim fun _ h2 => h2.elim fun _ h3 => h3.2.2.2.2.2.2.2.2.2⟩

/-- C22: `p_shHdrFree` hands back the header as it received it (lines, vector
and counter) when the header has no vector and when entry 0 of its vector is
absent; when entry 0 is present it replaces the vector by what `f_hdel` makes
of it, keeps the header with a vector, and adds exactly 1 to the counter. -/
theorem C22_free_contents {Dbl : Type} (L : Libfits Dbl) (a_hdr : HDR) :
    (a_hdr.hdrVec = none → p_shHdrFree L a_hdr = a_hdr) ∧
    (∀ v, a_hdr.hdrVec = some v → slot v 0 = none → p_shHdrFree L a_hdr = a_hdr) ∧
    (∀ v, a_hdr.hdrVec = some v → slot v 0 ≠ none →
      p_shHdrFree L a_hdr = HDR.mk (a_hdr.modCnt + 1) (some (L.f_hdel v))) := by
  refine ⟨?_, ?_, ?_⟩
  · intro h; simp [p_shHdrFree, h]
  · intro v hv h0; simp [p_shHdrFree, hv, h0]
  · intro v hv h0; simp [p_shHdrFree, hv, h0, p_shHdrCntrIncrement]

/-- C23, amended: `p_shHdrFreeForVec` hands back a header without vector as it
received it, counter included. On a header with a vector its result is that of
`p_shHdrFree` followed by the release of the vector: the vector is `NULL`,
every query but `shHdrGetLineTotal` returns `SH_HEADER_IS_NULL` and
`shHdrGetLineTotal` returns 0, and the counter is one more than `p_shHdrFree`
left it, that is 1 more than before the call when entry 0 was absent and 2 more
when it was present. The counter field is above its value before the call
whenever that value is more than 2 below the point where the field wraps. -/
theorem C23_free_all {Dbl : Type} (L : Libfits Dbl) (MAXHDRLINE : Nat) (a_hdr : HDR)
    (k : String) (idx : Int) :
    (a_hdr.hdrVec = none → p_shHdrFreeForVec L a_hdr = a_hdr) ∧
    (∀ v, a_hdr.hdrVec = some v →
      p_shHdrFreeForVec L a_hdr = HDR.mk ((p_shHdrFree L a_hdr).modCnt + 1) none ∧
      (p_shHdrFreeForVec L a_hdr).hdrVec = none ∧
      (slot v 0 = none → (p_shHdrFreeForVec L a_hdr).modCnt = a_hdr.modCnt + 1) ∧
      (slot v 0 ≠ none → (p_shHdrFreeForVec L a_hdr).modCnt = a_hdr.modCnt + 2) ∧
      (∀ width, a_hdr.modCnt + 2 < 2 ^ width →
        fieldValue width a_hdr.modCnt
          < fieldValue width (p_shHdrFreeForVec L a_hdr).modCnt) ∧
      shHdrGetAscii L (p_shHdrFreeForVec L a_hdr) k = (SH_HEADER_IS_NULL, none) ∧
      shHdrGetDbl L (p_shHdrFreeForVec L a_hdr) k = (SH_HEADER_IS_NULL, none) ∧
      shHdrGetInt L (p_shHdrFreeForVec L a_hdr) k = (SH_HEADER_IS_NULL, none) ∧
      shHdrGetLogical L (p_shHdrFreeForVec L a_hdr) k = (SH_HEADER_IS_NULL, none) ∧
      shHdrGetLine L (p_shHdrFreeForVec L a_hdr) k = (SH_HEADER_IS_NULL, none) ∧
      shHdrGetLineno MAXHDRLINE (p_shHdrFreeForVec L a_hdr) k = (SH_HEADER_IS_NULL, none) ∧
      shHdrGetLineCont MAXHDRLINE (p_shHdrFreeForVec L a_hdr) idx
        = (SH_HEADER_IS_NULL, none) ∧
      shHdrGetLineTotal MAXHDRLINE (p_shHdrFreeForVec L a_hdr) = (SH_SUCCESS, 0)) := by
  constructor
  · intro h; simp [p_shHdrFreeForVec, h]
  · intro v hv
    have hres : p_shHdrFreeForVec L a_hdr
        = HDR.mk ((p_shHdrFree L a_hdr).modCnt + 1) none := by
      simp [p_shHdrFreeForVec, hv, p_shHdrCntrIncrement]
    have hcnt := free_modCnt L a_hdr
    have habs : slot v 0 = none → (p_shHdrFree L a_hdr).modCnt = a_hdr.modCnt := by
      intro h0; simp [p_shHdrFree, hv, h0]
    have hpre : slot v 0 ≠ none → (p_shHdrFree L a_hdr).modCnt = a_hdr.modCnt + 1 := by
      intro h0; simp [p_shHdrFree, hv, h0, p_shHdrCntrIncrement]
    rw [hres]
    refine ⟨rfl, rfl, ?_, ?_, ?_, ?_⟩
    · intro h0
      show (p_shHdrFree L a_hdr).modCnt + 1 = a_hdr.modCnt + 1
      rw [habs h0]
    · intro h0
      show (p_shHdrFree L a_hdr).modCnt + 1 = a_hdr.modCnt + 2
      rw [hpre h0]
    · intro width hw
      show fieldValue width a_hdr.modCnt
        < fieldValue width ((p_shHdrFree L a_hdr).modCnt + 1)
      exact fieldValue_lt width _ _ hw (by omega) (by omega)
    · simp [shHdrGetAscii, shHdrGetDbl, shHdrGetInt, shHdrGetLogical, shHdrGetLine,
        shHdrGetLineno, shHdrGetLineCont, shHdrGetLineTotal]

/-- Counterexample to C23 as stated, for a counter field of 32 bits: the header
that `shHdrNew` makes in memory whose counter field held 4294967294 has a
vector and a counter field of 4294967295; after `p_shHdrFreeForVec` the field
has wrapped to 0 and is not above its value before the call. -/
theorem C23_free_all_counterexample :
    (shHdrNew 3 4294967294).hdrVec ≠ none ∧
    fieldValue 32 (shHdrNew 3 4294967294).modCnt = 4294967295 ∧
    fieldValue 32 (p_shHdrFreeForVec demoFits (shHdrNew 3 4294967294)).modCnt = 0 ∧
    ¬ (fieldValue 32 (shHdrNew 3 4294967294).modCnt
        < fieldValue 32 (p_shHdrFreeForVec demoFits (shHdrNew 3 4294967294)).modCnt) := by
  decide

/-- C26: for every header, key, value and comment, each typed insert equals, in
return code and in the header it leaves (lines, vector and counter),
`shHdrInsertLine` at line number `MAXHDRLINE + 1` with the line that the
matching `shHdrMakeLineWith` routine makes of the same key, value and
comment. -/
theorem C26_typed_insert_is_insertLine {Dbl : Type} (L : Libfits Dbl) (MAXHDRLINE : Nat)
    (a_hdr : HDR) (a_key a : String) (d : Dbl) (n b : Int) (a_comment : Option String) :
    shHdrInsertAscii L MAXHDRLINE a_hdr a_key a a_comment
      = shHdrInsertLine L MAXHDRLINE a_hdr ((MAXHDRLINE : Int) + 1)
          (shHdrMakeLineWithAscii L a_key a a_comment) ∧
    shHdrInsertDbl L MAXHDRLINE a_hdr a_key d a_comment
      = shHdrInsertLine L MAXHDRLINE a_hdr ((MAXHDRLINE : Int) + 1)
          (shHdrMakeLineWithDbl L a_key d a_comment) ∧
    shHdrInsertInt L MAXHDRLINE a_hdr a_key n a_comment
      = shHdrInsertLine L MAXHDRLINE a_hdr ((MAXHDRLINE : Int) + 1)
          (shHdrMakeLineWithInt L a_key n a_comment) ∧
    shHdrInsertLogical L MAXHDRLINE a_hdr a_key b a_comment
      = shHdrInsertLine L MAXHDRLINE a_hdr ((MAXHDRLINE : Int) + 1)
          (shHdrMakeLineWithLogical L a_key b a_comment) :=
  ⟨insertAscii_eq L MAXHDRLINE a_hdr a_key a a_comment,
    insertDbl_eq L MAXHDRLINE a_hdr a_key d a_comment,
    insertInt_eq L MAXHDRLINE a_hdr a_key n a_comment,
    insertLogical_eq L MAXHDRLINE a_hdr a_key b a_comment⟩

/-- C27: on a header with vector `v`, `shHdrDelByLine` returns `SH_SUCCESS`
exactly when `f_hldel` accepts the deletion and `SH_GENERIC_ERROR` exactly when
it rejects it; the counter is left as it was on the accepted path and is
increased by exactly 1 on the rejected path. -/
theorem C27_delByLine_outcome {Dbl : Type} (L : Libfits Dbl) (a_hdr : HDR)
    (v : List HDR_VEC) (hv : a_hdr.hdrVec = some v) (a_lineNo : Int) :
    ((shHdrDelByLine L a_hdr a_lineNo).1 = SH_SUCCESS ↔ (L.f_hldel v a_lineNo).1 = true) ∧
    ((shHdrDelByLine L a_hdr a_lineNo).1 = SH_GENERIC_ERROR ↔
      (L.f_hldel v a_lineNo).1 = false) ∧
    ((L.f_hldel v a_lineNo).1 = true →
      shHdrDelByLine L a_hdr a_lineNo
        = (SH_SUCCESS, HDR.mk a_hdr.modCnt (some (L.f_hldel v a_lineNo).2))) ∧
    ((L.f_hldel v a_lineNo).1 = false →
      shHdrDelByLine L a_hdr a_lineNo
        = (SH_GENERIC_ERROR, HDR.mk (a_hdr.modCnt + 1) (some (L.f_hldel v a_lineNo).2))) := by
  cases hacc : (L.f_hldel v a_lineNo).1 <;>
    simp [shHdrDelByLine, hv, hacc, p_shHdrCntrIncrement]

/-- Witness of C27: line number 5 is not there in a header of one line; the
deletion is rejected and the counter moves from 5 to 6. -/
theorem C27_delByLine_outcome_witness :
    (HDR.mk 5 (some [some "OBJECT  = 'M31'", none, none, none])).hdrVec
      = some [some "OBJECT  = 'M31'", none, none, none] ∧
    (demoFits.f_hldel [some "OBJECT  = 'M31'", none, none, none] 5).1 = false ∧
    shHdrDelByLine demoFits (HDR.mk 5 (some [some "OBJECT  = 'M31'", none, none, none])) 5
      = (SH_GENERIC_ERROR, HDR.mk (5 + 1)
          (some (demoFits.f_hldel [some "OBJECT  = 'M31'", none, none, none] 5).2)) :=
  ⟨rfl, by decide,
    (C27_delByLine_outcome demoFits
      (HDR.mk 5 (some [some "OBJECT  = 'M31'", none, none, none]))
      [some "OBJECT  = 'M31'", none, none, none] rfl 5).2.2.2 (by decide)⟩

/-- C28: the exact change of the counter by an insert, for `shHdrInsertLine`
and the four typed inserts. On a header with a vector the counter grows by
exactly 1 on `SH_SUCCESS` and by 0 on `SH_HEADER_INSERTION_ERROR`; on a header
without vector it grows by exactly 3 on `SH_SUCCESS` and by exactly 2 on
`SH_HEADER_INSERTION_ERROR`. After such a refused insert the header keeps the
vector that was allocated, as `f_hlins` left it: a vector without any line when
`f_hlins` leaves a vector it refuses as it was. -/
theorem C28_insert_counter {Dbl : Type} (L : Libfits Dbl) (MAXHDRLINE : Nat)
    (a_hdr : HDR) (a_lineNo : Int) (a_line a_key a : String) (d : Dbl) (n b : Int)
    (a_comment : Option String) :
    (InsertCounter a_hdr (shHdrInsertLine L MAXHDRLINE a_hdr a_lineNo a_line) ∧
      LeftEmptyOnReject L MAXHDRLINE a_hdr a_lineNo a_line
        (shHdrInsertLine L MAXHDRLINE a_hdr a_lineNo a_line)) ∧
    (InsertCounter a_hdr (shHdrInsertAscii L MAXHDRLINE a_hdr a_key a a_comment) ∧
      LeftEmptyOnReject L MAXHDRLINE a_hdr ((MAXHDRLINE : Int) + 1)
        (L.f_mkakey a_key a (commentOf a_comment))
        (shHdrInsertAscii L MAXHDRLINE a_hdr a_key a a_comment)) ∧
    (InsertCounter a_hdr (shHdrInsertDbl L MAXHDRLINE a_hdr a_key d a_comment) ∧
      LeftEmptyOnReject L MAXHDRLINE a_hdr ((MAXHDRLINE : Int) + 1)
        (L.f_mkdkey a_key d (commentOf a_comment))
        (shHdrInsertDbl L MAXHDRLINE a_hdr a_key d a_comment)) ∧
    (InsertCounter a_hdr (shHdrInsertInt L MAXHDRLINE a_hdr a_key n a_comment) ∧
      LeftEmptyOnReject L MAXHDRLINE a_hdr ((MAXHDRLINE : Int) + 1)
        (L.f_mkikey a_key n (commentOf a_comment))
        (shHdrInsertInt L MAXHDRLINE a_hdr a_key n a_comment)) ∧
    (InsertCounter a_hdr (shHdrInsertLogical L MAXHDRLINE a_hdr a_key b a_comment) ∧
      LeftEmptyOnReject L MAXHDRLINE a_hdr ((MAXHDRLINE : Int) + 1)
        (L.f_mklkey a_key b (commentOf a_comment))
        (shHdrInsertLogical L MAXHDRLINE a_hdr a_key b a_comment)) := by
  rw [insertAscii_eq, insertDbl_eq, insertInt_eq, insertLogical_eq]
  exact ⟨⟨insertLine_insertCounter _ _ _ _ _, insertLine_leftEmpty _ _ _ _ _⟩,
    ⟨insertLine_insertCounter _ _ _ _ _, insertLine_leftEmpty _ _ _ _ _⟩,
    ⟨insertLine_insertCounter _ _ _ _ _, insertLine_leftEmpty _ _ _ _ _⟩,
    ⟨insertLine_insertCounter _ _ _ _ _, insertLine_leftEmpty _ _ _ _ _⟩,
    ⟨insertLine_insertCounter _ _ _ _ _, insertLine_leftEmpty _ _ _ _ _⟩⟩

/-- C29: for the empty keyword and `MAXHDRLINE` above 0, `shHdrGetLineno` on a
header with vector `v` returns `SH_SUCCESS` with index 0 whenever entry 0 is
present, whatever its text, and `SH_GENERIC_ERROR` whenever entry 0 is
absent. -/
theorem C29_empty_keyword (MAXHDRLINE : Nat) (hM : 0 < MAXHDRLINE) (a_hdr : HDR)
    (v : List HDR_VEC) (hv : a_hdr.hdrVec = some v) :
    (∀ line, slot v 0 = some line → shHdrGetLineno MAXHDRLINE a_hdr "" = (SH_SUCCESS, some 0)) ∧
    (slot v 0 ≠ none → shHdrGetLineno MAXHDRLINE a_hdr "" = (SH_SUCCESS, some 0)) ∧
    (slot v 0 = none → shHdrGetLineno MAXHDRLINE a_hdr "" = (SH_GENERIC_ERROR, none)) := by
  obtain ⟨m, rfl⟩ : ∃ m, MAXHDRLINE = m + 1 := ⟨MAXHDRLINE - 1, by omega⟩
  have hsome : ∀ line, slot v 0 = some line →
      shHdrGetLineno (m + 1) a_hdr "" = (SH_SUCCESS, some 0) := by
    intro line hs
    simp [shHdrGetLineno, hv, shHdrGetLineno.loop, hs, strlen, strncmp]
  refine ⟨hsome, ?_, ?_⟩
  · intro h0
    cases hs : slot v 0 with
    | none => exact absurd hs h0
    | some line => exact hsome line hs
  · intro h0
    simp [shHdrGetLineno, hv, shHdrGetLineno.loop, h0]

/-- Witness of C29: the empty keyword is found on line 0 of a header whose
first line is a comment. -/
theorem C29_empty_keyword_witness :
    0 < 3 ∧
    (HDR.mk 0 (some [some "COMMENT x", none, none, none])).hdrVec
      = some [some "COMMENT x", none, none, none] ∧
    shHdrGetLineno 3 (HDR.mk 0 (some [some "COMMENT x", none, none, none])) ""
      = (SH_SUCCESS, some 0) :=
  ⟨by decide, rfl,
    (C29_empty_keyword 3 (by decide) (HDR.mk 0 (some [some "COMMENT x", none, none, none]))
      [some "COMMENT x", none, none, none] rfl).1 "COMMENT x" (by decide)⟩

/-- C24, amended: for every header and every libfits, `shHdrInit` returns
`SH_SUCCESS` and leaves the header with a vector, and the counter is 2 more
than before the call when the header had no vector or entry 0 of its vector was
present, and 1 more when entry 0 was absent; the counter field is above its
value before the call whenever that value is more than 2 below the point where
the field wraps. If the header had no vector, every entry is absent afterwards;
if it had a contiguous vector, which `f_hdel` clears when entry 0 is present,
the entries `0 .. MAXHDRLINE - 1` are all absent afterwards; `shHdrGetLineTotal`
is 0 after the call in both cases. -/
theorem C24_reset {Dbl : Type} (L : Libfits Dbl) (MAXHDRLINE : Nat) (a_hdr : HDR) :
    (shHdrInit L MAXHDRLINE a_hdr).1 = SH_SUCCESS ∧
    (shHdrInit L MAXHDRLINE a_hdr).2.hdrVec ≠ none ∧
    (a_hdr.hdrVec = none →
      (shHdrInit L MAXHDRLINE a_hdr).2.modCnt = a_hdr.modCnt + 2) ∧
    (∀ v, a_hdr.hdrVec = some v → slot v 0 = none →
      (shHdrInit L MAXHDRLINE a_hdr).2.modCnt = a_hdr.modCnt + 1) ∧
    (∀ v, a_hdr.hdrVec = some v → slot v 0 ≠ none →
      (shHdrInit L MAXHDRLINE a_hdr).2.modCnt = a_hdr.modCnt + 2) ∧
    (∀ width, a_hdr.modCnt + 2 < 2 ^ width →
      fieldValue width a_hdr.modCnt
        < fieldValue width (shHdrInit L MAXHDRLINE a_hdr).2.modCnt) ∧
    (a_hdr.hdrVec = none →
      (shHdrInit L MAXHDRLINE a_hdr).2.hdrVec
        = some (List.replicate (MAXHDRLINE + 1) none) ∧
      shHdrGetLineTotal MAXHDRLINE (shHdrInit L MAXHDRLINE a_hdr).2 = (SH_SUCCESS, 0)) ∧
    (∀ v, a_hdr.hdrVec = some v → Contiguous MAXHDRLINE v →
      (slot v 0 ≠ none → ClearsLines L MAXHDRLINE v) →
      (∃ w, (shHdrInit L MAXHDRLINE a_hdr).2.hdrVec = some w ∧
        ∀ i, i < MAXHDRLINE → slot w i = none) ∧
      shHdrGetLineTotal MAXHDRLINE (shHdrInit L MAXHDRLINE a_hdr).2 = (SH_SUCCESS, 0)) := by
  have hnone : a_hdr.hdrVec = none →
      (shHdrInit L MAXHDRLINE a_hdr).2
        = HDR.mk (a_hdr.modCnt + 2) (some (List.replicate (MAXHDRLINE + 1) none)) := by
    intro h
    simp [shHdrInit, h, p_shHdrMallocForVec, p_shHdrCntrIncrement]
  have habs : ∀ v, a_hdr.hdrVec = some v → slot v 0 = none →
      (shHdrInit L MAXHDRLINE a_hdr).2 = HDR.mk (a_hdr.modCnt + 1) (some v) := by
    intro v hv h0
    simp [shHdrInit, hv, p_shHdrFree, h0, p_shHdrCntrIncrement]
  have hpre : ∀ v, a_hdr.hdrVec = some v → slot v 0 ≠ none →
      (shHdrInit L MAXHDRLINE a_hdr).2 = HDR.mk (a_hdr.modCnt + 2) (some (L.f_hdel v)) := by
    intro v hv h0
    simp [shHdrInit, hv, p_shHdrFree, h0, p_shHdrCntrIncrement]
  have hcases : (shHdrInit L MAXHDRLINE a_hdr).2.hdrVec ≠ none ∧
      (a_hdr.modCnt < (shHdrInit L MAXHDRLINE a_hdr).2.modCnt ∧
        (shHdrInit L MAXHDRLINE a_hdr).2.modCnt ≤ a_hdr.modCnt + 2) := by
    cases hv : a_hdr.hdrVec with
    | none => rw [hnone hv]; simp
    | some v =>
      by_cases h0 : slot v 0 = none
      · rw [habs v hv h0]; simp
      · rw [hpre v hv h0]; simp
  have hzero : ∀ w, (shHdrInit L MAXHDRLINE a_hdr).2.hdrVec = some w →
      (∀ i, i < MAXHDRLINE → slot w i = none) →
      shHdrGetLineTotal MAXHDRLINE (shHdrInit L MAXHDRLINE a_hdr).2 = (SH_SUCCESS, 0) :=
    fun w hw hall => getLineTotal_of_firstAbsent MAXHDRLINE _ w hw 0
      ⟨Nat.zero_le _, fun j hj => absurd hj (Nat.not_lt_zero j), fun h => hall 0 h⟩
  refine ⟨by simp [shHdrInit], hcases.1, ?_, ?_, ?_, ?_, ?_, ?_⟩
  · intro h; rw [hnone h]
  · intro v hv h0; rw [habs v hv h0]
  · intro v hv h0; rw [hpre v hv h0]
  · intro width hw
    exact fieldValue_lt width _ _ hw hcases.2.1 hcases.2.2
  · intro h
    have hvec : (shHdrInit L MAXHDRLINE a_hdr).2.hdrVec
        = some (List.replicate (MAXHDRLINE + 1) none) := by rw [hnone h]
    exact ⟨hvec, hzero _ hvec (fun i _ => slot_replicate_none _ i)⟩
  · intro v hv hcont hclr
    have hvec : ∃ w, (shHdrInit L MAXHDRLINE a_hdr).2.hdrVec = some w ∧
        ∀ i, i < MAXHDRLINE → slot w i = none := by
      by_cases h0 : slot v 0 = none
      · refine ⟨v, by rw [habs v hv h0], ?_⟩
        intro i hi
        by_cases hi0 : i = 0
        · subst hi0; exact h0
        · exact hcont 0 i (by omega) hi h0
      · exact ⟨L.f_hdel v, by rw [hpre v hv h0], (hclr h0).2⟩
    obtain ⟨w, hw, hall⟩ := hvec
    exact ⟨⟨w, hw, hall⟩, hzero w hw hall⟩

/-- Witness of C24: the reset of a header of two lines leaves no line and
takes the counter from 5 to 7. -/
theorem C24_reset_witness :
    shHdrInit demoFits 3 (HDR.mk 5 (some [some "X", some "Y", none, none]))
      = (SH_SUCCESS, HDR.mk 7 (some [none, none, none, none])) ∧
    Contiguous 3 [some "X", some "Y", none, none] ∧
    ClearsLines demoFits 3 [some "X", some "Y", none, none] ∧
    shHdrGetLineTotal 3 (shHdrInit demoFits 3 (HDR.mk 5 (some [some "X", some "Y", none, none]))).2
      = (SH_SUCCESS, 0) :=
  have hc : Contiguous 3 [some "X", some "Y", none, none] :=
    contiguous_of_bounded 3 _ (by decide)
  have hclr : ClearsLines demoFits 3 [some "X", some "Y", none, none] := by
    unfold ClearsLines
    decide
  ⟨by decide, hc, hclr,
    ((C24_reset demoFits 3 (HDR.mk 5 (some [some "X", some "Y", none, none]))).2.2.2.2.2.2.2
      [some "X", some "Y", none, none] rfl hc (fun _ => hclr)).2⟩

/-- Counterexample to C24 as stated, for a counter field of 32 bits: the header
that `shHdrNew` makes in memory whose counter field held 4294967294 has a
counter field of 4294967295; `shHdrInit` returns `SH_SUCCESS`, the field has
wrapped to 0 and is not above its value before the call. -/
theorem C24_reset_counterexample :
    fieldValue 32 (shHdrNew 3 4294967294).modCnt = 4294967295 ∧
    (shHdrInit demoFits 3 (shHdrNew 3 4294967294)).1 = SH_SUCCESS ∧
    fieldValue 32 (shHdrInit demoFits 3 (shHdrNew 3 4294967294)).2.modCnt = 0 ∧
    ¬ (fieldValue 32 (shHdrNew 3 4294967294).modCnt
        < fieldValue 32 (shHdrInit demoFits 3 (shHdrNew 3 4294967294)).2.modCnt) := by
  decide

/-- C25: query consistency. On a header with vector `v` and for a keyword `k`
(a C string), if `shHdrGetLineno` returns `SH_SUCCESS` with index `i`, then `i`
is below the total of `shHdrGetLineTotal`, which is at most `MAXHDRLINE`;
`shHdrGetLineCont` at `i` returns `SH_SUCCESS` with a text that has `k` as a
prefix; and at every `j` below `i` it returns `SH_SUCCESS` with a text that
does not have `k` as a prefix. -/
theorem C25_query_consistency (MAXHDRLINE : Nat) (a_hdr : HDR) (v : List HDR_VEC)
    (hv : a_hdr.hdrVec = some v) (k : String) (hk : IsCString k) (i : Nat)
    (hres : shHdrGetLineno MAXHDRLINE a_hdr k = (SH_SUCCESS, some i)) :
    i < (shHdrGetLineTotal MAXHDRLINE a_hdr).2 ∧
    (shHdrGetLineTotal MAXHDRLINE a_hdr).2 ≤ MAXHDRLINE ∧
    (∃ line, shHdrGetLineCont MAXHDRLINE a_hdr (i : Int) = (SH_SUCCESS, some line) ∧
      k.data <+: line.data) ∧
    (∀ j, j < i → ∃ line,
      shHdrGetLineCont MAXHDRLINE a_hdr (j : Int) = (SH_SUCCESS, some line) ∧
      ¬ k.data <+: line.data) := by
  have hdef : shHdrGetLineTotal MAXHDRLINE a_hdr
      = (SH_SUCCESS, shHdrGetLineTotal.loop v MAXHDRLINE 0) := by
    simp [shHdrGetLineTotal, hv]
  obtain ⟨_, c2, c3, c4⟩ := getLineTotal_loop_spec v MAXHDRLINE 0
  rw [hdef]
  simp only
  generalize shHdrGetLineTotal.loop v MAXHDRLINE 0 = c at c2 c3 c4 ⊢
  have hfa : IsFirstAbsent MAXHDRLINE v c :=
    ⟨by omega, fun j hj => c3 j (Nat.zero_le _) hj, fun h => c4 (by omega)⟩
  have hcont : ∀ (j : Nat) (line : String), j < MAXHDRLINE → slot v j = some line →
      shHdrGetLineCont MAXHDRLINE a_hdr (j : Int) = (SH_SUCCESS, some line) := by
    intro j line hj hs
    simp [shHdrGetLineCont, hv, hs, hj]
  rcases getLineno_cases MAXHDRLINE a_hdr v hv k c hfa with
    ⟨m, h1, h2, h3, h4⟩ | ⟨_, h2⟩
  · rw [h4] at hres
    have hmi : m = i := by simpa using hres
    subst hmi
    refine ⟨h1, by omega, ?_, ?_⟩
    · obtain ⟨line, hs, hp⟩ := (hit_iff_hasPrefix v k hk m).1 h2
      exact ⟨line, hcont m line (by omega) hs, hp⟩
    · intro j hj
      cases hs : slot v j with
      | none => exact absurd hs (hfa.2.1 j (by omega))
      | some line =>
        refine ⟨line, hcont j line (by omega) hs, ?_⟩
        intro hp
        exact h3 j hj ((hit_iff_hasPrefix v k hk j).2 ⟨line, hs, hp⟩)
  · rw [h2] at hres
    simp at hres

/-- Witness of C25: the keyword `EXP` is found on line 1 of a header of three
lines; line 1 starts with it and the total is above 1. -/
theorem C25_query_consistency_witness :
    IsCString "EXP" ∧
    shHdrGetLineno 4
      (HDR.mk 0 (some [some "SIMPLE  = T", some "EXPTIME = 30", some "EXP     = 1", none, none]))
      "EXP" = (SH_SUCCESS, some 1) ∧
    1 < (shHdrGetLineTotal 4
      (HDR.mk 0 (some [some "SIMPLE  = T", some "EXPTIME = 30", some "EXP     = 1", none,
        none]))).2 ∧
    ∃ line, shHdrGetLineCont 4
        (HDR.mk 0 (some [some "SIMPLE  = T", some "EXPTIME = 30", some "EXP     = 1", none,
          none])) ((1 : Nat) : Int) = (SH_SUCCESS, some line) ∧
      "EXP".data <+: line.data :=
  have h := C25_query_consistency 4
    (HDR.mk 0 (some [some "SIMPLE  = T", some "EXPTIME = 30", some "EXP     = 1", none, none]))
    [some "SIMPLE  = T", some "EXPTIME = 30", some "EXP     = 1", none, none] rfl
    "EXP" (by decide) 1 (by decide)
  ⟨by decide, by decide, h.1, h.2.2.1⟩

/-- C30: copy keeps stale lines of a destination that is not contiguous.
Whenever entry 0 of the destination is absent, `p_shHdrFree` leaves the
destination as it is (its lines are freed only when entry 0 is present), so
`shHdrCopy` returns `SH_SUCCESS` and every entry of the destination whose
source entry is absent still holds what it held. For `MAXHDRLINE` at least 2
there are a source and a destination, both with a vector, and an index `j`
with `0 < j < MAXHDRLINE`, such that entry 0 of the destination is absent,
entry `j` of the destination is present, entry `j` of the source is absent, and
after the copy entry `j` of the destination still holds its old line and so
differs from the source. -/
theorem C30_copy_keeps_stale_lines {Dbl : Type} (L : Libfits Dbl) (MAXHDRLINE : Nat)
    (hM : 2 ≤ MAXHDRLINE) :
    (∀ (a_inHdr a_outHdr : HDR) (sv dv : List HDR_VEC), a_inHdr.hdrVec = some sv →
      a_outHdr.hdrVec = some dv → slot dv 0 = none →
      p_shHdrFree L a_outHdr = a_outHdr ∧
      (shHdrCopy L MAXHDRLINE a_inHdr a_outHdr).1 = SH_SUCCESS ∧
      ∃ ov, (shHdrCopy L MAXHDRLINE a_inHdr a_outHdr).2.hdrVec = some ov ∧
        ∀ j, slot sv j = none → slot ov j = slot dv j) ∧
    (∃ (a_inHdr a_outHdr : HDR) (sv dv : List HDR_VEC) (j : Nat) (line : String),
      a_inHdr.hdrVec = some sv ∧ a_outHdr.hdrVec = some dv ∧
      slot dv 0 = none ∧ 0 < j ∧ j < MAXHDRLINE ∧
      slot dv j = some line ∧ slot sv j = none ∧
      (shHdrCopy L MAXHDRLINE a_inHdr a_outHdr).1 = SH_SUCCESS ∧
      ∃ ov, (shHdrCopy L MAXHDRLINE a_inHdr a_outHdr).2.hdrVec = some ov ∧
        slot ov j = some line ∧ slot ov j ≠ slot sv j) := by
  have gen : ∀ (a_inHdr a_outHdr : HDR) (sv dv : List HDR_VEC), a_inHdr.hdrVec = some sv →
      a_outHdr.hdrVec = some dv → slot dv 0 = none →
      p_shHdrFree L a_outHdr = a_outHdr ∧
      (shHdrCopy L MAXHDRLINE a_inHdr a_outHdr).1 = SH_SUCCESS ∧
      ∃ ov, (shHdrCopy L MAXHDRLINE a_inHdr a_outHdr).2.hdrVec = some ov ∧
        ∀ j, slot sv j = none → slot ov j = slot dv j := by
    intro a_inHdr a_outHdr sv dv hs hd h0
    have hfree : p_shHdrFree L a_outHdr = a_outHdr := by simp [p_shHdrFree, hd, h0]
    refine ⟨hfree, by simp [shHdrCopy, hs], (List.range MAXHDRLINE).foldl (shHdrCopy.body sv) dv,
      ?_, ?_⟩
    · simp [shHdrCopy, hs, hd, hfree, p_shHdrCntrIncrement]
    · intro j hj
      rw [copy_loop_slot]
      simp [hj]
  refine ⟨gen, ?_⟩
  have hsv : ∀ j, slot (List.replicate (MAXHDRLINE + 1) (none : HDR_VEC)) j = none :=
    fun j => slot_replicate_none _ j
  obtain ⟨_, h2, ov, h3, h4⟩ := gen (HDR.mk 0 (some (List.replicate (MAXHDRLINE + 1) none)))
    (HDR.mk 0 (some (none :: some "STALE" :: List.replicate (MAXHDRLINE - 1) none)))
    (List.replicate (MAXHDRLINE + 1) none)
    (none :: some "STALE" :: List.replicate (MAXHDRLINE - 1) none) rfl rfl
    (slot_cons_zero _ _)
  have hd1 : slot (none :: some "STALE" :: List.replicate (MAXHDRLINE - 1) none) 1
      = some "STALE" := by
    rw [slot_cons_succ, slot_cons_zero]
  refine ⟨_, _, _, _, 1, "STALE", rfl, rfl, slot_cons_zero _ _, by omega, by omega, hd1,
    hsv 1, h2, ov, h3, ?_, ?_⟩
  · rw [h4 1 (hsv 1), hd1]
  · rw [h4 1 (hsv 1), hd1, hsv 1]
    simp

/-- Witness of C30: with `MAXHDRLINE = 3` and the libfits `demoFits`, and the
copy of a header of one line onto a header whose only line is in entry 1: the
result holds both lines. -/
theorem C30_copy_keeps_stale_lines_witness :
    2 ≤ 3 ∧
    shHdrCopy demoFits 3 (HDR.mk 0 (some [some "A", none, none, none]))
        (HDR.mk 0 (some [none, some "STALE", none, none]))
      = (SH_SUCCESS, HDR.mk 1 (some [some "A", some "STALE", none, none])) ∧
    ∃ (a_inHdr a_outHdr : HDR) (sv dv : List HDR_VEC) (j : Nat) (line : String),
      a_inHdr.hdrVec = some sv ∧ a_outHdr.hdrVec = some dv ∧
      slot dv 0 = none ∧ 0 < j ∧ j < 3 ∧
      slot dv j = some line ∧ slot sv j = none ∧
      (shHdrCopy demoFits 3 a_inHdr a_outHdr).1 = SH_SUCCESS ∧
      ∃ ov, (shHdrCopy demoFits 3 a_inHdr a_outHdr).2.hdrVec = some ov ∧
        slot ov j = some line ∧ slot ov j ≠ slot sv j :=
  ⟨by decide, by decide, (C30_copy_keeps_stale_lines demoFits 3 (by decide)).2⟩

/-- C21, amended: round trip, for an `f_hlins` that appends and an `f_akey`
that looks up as the spec has them (`specAppend`, `specLookup`), and a codec
that reads from the line made of this keyword and value the keyword and the
value again. If `shHdrInsertAscii` returns `SH_SUCCESS` and no line held before
the insert matches the keyword, then `shHdrGetAscii` on the resulting header
returns `SH_SUCCESS` with that value; the header may hold other lines. -/
theorem C21_insert_then_get {Dbl : Type} (L : Libfits Dbl) (MAXHDRLINE : Nat)
    (isKey : String → String → Bool) (valueOf : String → Option String)
    (happ : ∀ v line,
      L.f_hlins v MAXHDRLINE ((MAXHDRLINE : Int) + 1) line = specAppend v MAXHDRLINE line)
    (hget : ∀ v k, L.f_akey v k = specLookup isKey valueOf v k)
    (a_hdr : HDR) (hlen : (spliceVec MAXHDRLINE a_hdr).length = MAXHDRLINE + 1)
    (k x : String) (cm : Option String)
    (hkey : isKey k (L.f_mkakey k x (commentOf cm)) = true)
    (hval : valueOf (L.f_mkakey k x (commentOf cm)) = some x)
    (hnew : ∀ j line, slot (spliceVec MAXHDRLINE a_hdr) j = some line →
      j < leading (spliceVec MAXHDRLINE a_hdr) → isKey k line = false)
    (hsucc : (shHdrInsertAscii L MAXHDRLINE a_hdr k x cm).1 = SH_SUCCESS) :
    shHdrGetAscii L (shHdrInsertAscii L MAXHDRLINE a_hdr k x cm).2 k
      = (SH_SUCCESS, some x) := by
  rw [insertAscii_eq, insertLine_eq, happ] at hsucc ⊢
  by_cases hfull : (MAXHDRLINE : Int) ≤ (leading (spliceVec MAXHDRLINE a_hdr) : Int)
  · simp [specAppend, hfull] at hsucc
  · have hlt : leading (spliceVec MAXHDRLINE a_hdr) < (spliceVec MAXHDRLINE a_hdr).length := by
      omega
    have hfind := findKey_set_leading isKey k _ hkey (spliceVec MAXHDRLINE a_hdr) hnew hlt
    have hslot : slot ((spliceVec MAXHDRLINE a_hdr).set (leading (spliceVec MAXHDRLINE a_hdr))
        (some (L.f_mkakey k x (commentOf cm)))) (leading (spliceVec MAXHDRLINE a_hdr))
        = some (L.f_mkakey k x (commentOf cm)) := by
      rw [slot_set]; simp [hlt]
    simp [specAppend, hfull, shHdrGetAscii, hget, specLookup, hfind, hslot, hval]

/-- Witness of C21: `OBJECT` is inserted with the value `M31` into a header
that already holds an `EXPTIME` line, and read back. -/
theorem C21_insert_then_get_witness :
    (shHdrInsertAscii codecFits 3 (HDR.mk 0 (some [some "EXPTIME = 30", none, none, none]))
      "OBJECT" "M31" (some "target name")).1 = SH_SUCCESS ∧
    shHdrGetAscii codecFits
      (shHdrInsertAscii codecFits 3 (HDR.mk 0 (some [some "EXPTIME = 30", none, none, none]))
        "OBJECT" "M31" (some "target name")).2 "OBJECT" = (SH_SUCCESS, some "M31") :=
  ⟨by decide,
    C21_insert_then_get codecFits 3 (fun k line => decide (k.data <+: line.data)) quoted
      (fun _ _ => rfl) (fun _ _ => rfl)
      (HDR.mk 0 (some [some "EXPTIME = 30", none, none, none])) rfl
      "OBJECT" "M31" (some "target name") (by decide) (by decide)
      (by
        intro j line hs hj
        have hj0 : j = 0 := by
          have : leading (spliceVec 3 (HDR.mk 0 (some [some "EXPTIME = 30", none, none, none])))
              = 1 := by decide
          omega
        subst hj0
        have hl : line = "EXPTIME = 30" := by
          have h0 : slot (spliceVec 3 (HDR.mk 0 (some [some "EXPTIME = 30", none, none, none])))
              0 = some "EXPTIME = 30" := by decide
          rw [h0] at hs
          exact (Option.some.inj hs).symm
        subst hl
        decide)
      (by decide)⟩

/-- Counterexample to C21 as stated: the header already holds an `OBJECT` line
with the value `M42`; `shHdrInsertAscii` of `OBJECT` with the value `M31`
returns `SH_SUCCESS`, and `shHdrGetAscii` of `OBJECT` on the resulting header
does not return `M31` (it returns the value of the first matching line). -/
theorem C21_insert_then_get_counterexample :
    ¬ ((shHdrInsertAscii codecFits 3
          (HDR.mk 0 (some [some "OBJECT= 'M42' /old", none, none, none]))
          "OBJECT" "M31" (some "target name")).1 = SH_SUCCESS →
      shHdrGetAscii codecFits
        (shHdrInsertAscii codecFits 3
          (HDR.mk 0 (some [some "OBJECT= 'M42' /old", none, none, none]))
          "OBJECT" "M31" (some "target name")).2 "OBJECT" = (SH_SUCCESS, some "M31")) := by
  decide

end Hdr
